import Mathlib

/-
  Shallow embedding of the standings and result-aggregation engine of the
  taca_sociedades repository (src/app.py, src/models.py).

  The relational data (models.py) is modelled as lists of records; the
  SQL queries of the `api_standings` route (src/app.py:1380-1557) are
  modelled as joins (flatMap with guards), groupings (dedup of keys plus
  filter per key) and window ranks (count of strictly better rows in the
  same partition).  The in-memory per-debate ranking of the results
  listing `view_results_list` (src/app.py:859-875) is modelled with a
  stable insertion sort, matching Python's stable `sorted`.
-/

namespace TacaSociedades

/-- The four debate sides (PositionEnum "OG","OO","CG","CO" in src/models.py). -/
inductive Pos where
  | OG
  | OO
  | CG
  | CO
deriving DecidableEq, Fintype

/-- The fixed side order `["OG", "OO", "CG", "CO"]` used by `view_results_list`. -/
def allPos : List Pos := [Pos.OG, Pos.OO, Pos.CG, Pos.CO]

/-- Society (src/models.py): `short_name` is nullable. -/
structure Society where
  id : Nat
  name : String
  short_name : Option String
deriving DecidableEq

/-- Edition (src/models.py): identified by a unique year. -/
structure Edition where
  id : Nat
  year : Int
deriving DecidableEq

/-- EditionSociety (src/models.py): a society's registration in one edition. -/
structure EditionSociety where
  id : Nat
  edition_id : Nat
  society_id : Nat
deriving DecidableEq

/-- Round (src/models.py plus the `scores_published` column used throughout
src/app.py): belongs to an edition, has `silent` and `scores_published` flags. -/
structure Round where
  id : Nat
  edition_id : Nat
  number : Nat
  silent : Bool
  scores_published : Bool
deriving DecidableEq

/-- Debate (src/models.py): belongs to a round. -/
structure Debate where
  id : Nat
  round_id : Nat
  number_in_round : Nat
deriving DecidableEq

/-- DebatePosition (src/models.py): maps one side of a debate to a registration. -/
structure DebatePosition where
  debate_id : Nat
  position : Pos
  edition_society_id : Nat
deriving DecidableEq

/-- Speech (src/models.py): two per side, integer score 50-100 or null. -/
structure Speech where
  debate_id : Nat
  position : Pos
  sequence_in_team : Nat
  score : Option Int
deriving DecidableEq

/-- A consistent snapshot of the tournament tables read by the aggregators. -/
structure DB where
  editions : List Edition
  societies : List Society
  edition_societies : List EditionSociety
  rounds : List Round
  debates : List Debate
  debate_positions : List DebatePosition
  speeches : List Speech
deriving DecidableEq

/-- Accumulator of the maximum-year scan modelling
`order_by(Edition.year.desc()).limit(1)`. -/
def gceStep (acc : Option Edition) (e : Edition) : Option Edition :=
  match acc with
  | none => some e
  | some b => if b.year < e.year then some e else some b

/-- `get_current_edition` (src/app.py:941-944): the edition with the greatest
year (`order_by(Edition.year.desc()).limit(1)`), or none if no edition exists. -/
def get_current_edition (db : DB) : Option Edition :=
  db.editions.foldl gceStep none

/-- The `edition` query parameter of `api_standings`: the string "current" or a year. -/
inductive EditionParam where
  | current
  | year (y : Int)
deriving DecidableEq

/-- Edition resolution in `api_standings` (src/app.py:1388-1395). -/
def resolveEdition (db : DB) (p : EditionParam) : Option Edition :=
  match p with
  | EditionParam.current => get_current_edition db
  | EditionParam.year y => db.editions.find? (fun e => decide (e.year = y))

/-- One row of the join Speech-Debate-Round-DebatePosition built by
`team_scores_per_team_sq` (src/app.py:1404-1434), before grouping. -/
structure SpeechJoin where
  debate_id : Nat
  position : Pos
  es_id : Nat
  scores_published : Bool
  score : Int
deriving DecidableEq

/-- The join rows produced by one Speech record: the inner joins to Debate
(on id), Round (on id, requiring the target edition, non-silent) and
DebatePosition (on debate and side), keeping only non-null scores
(src/app.py:1413-1426). -/
def joinOfSpeech (db : DB) (eid : Nat) (s : Speech) : List SpeechJoin :=
  match s.score with
  | none => []
  | some sc =>
    db.debates.flatMap (fun d =>
      if d.id = s.debate_id then
        db.rounds.flatMap (fun r =>
          if r.id = d.round_id then
            if r.edition_id = eid ∧ r.silent = false then
              db.debate_positions.flatMap (fun dp =>
                if dp.debate_id = s.debate_id ∧ dp.position = s.position then
                  [⟨s.debate_id, s.position, dp.edition_society_id, r.scores_published, sc⟩]
                else [])
            else []
          else [])
      else [])

/-- All join rows feeding `team_scores_per_team_sq` for one edition. -/
def speechJoinRows (db : DB) (eid : Nat) : List SpeechJoin :=
  db.speeches.flatMap (joinOfSpeech db eid)

/-- The GROUP BY key of `team_scores_per_team_sq` (src/app.py:1427-1432). -/
structure TeamKey where
  debate_id : Nat
  position : Pos
  es_id : Nat
  scores_published : Bool
deriving DecidableEq

/-- Key of a join row. -/
def keyOf (j : SpeechJoin) : TeamKey :=
  ⟨j.debate_id, j.position, j.es_id, j.scores_published⟩

/-- One row of `team_scores_per_team_sq`: per (debate, side, registration),
the sum of non-null scores and their count (src/app.py:1404-1434). -/
structure TeamRow where
  debate_id : Nat
  position : Pos
  es_id : Nat
  scores_published : Bool
  team_total : Int
  speech_count : Nat
deriving DecidableEq

/-- A generic SQL-style grouping: one output row per distinct key, built
from the rows sharing that key. -/
def sqlGroup {α κ β : Type} [DecidableEq κ] (key : α → κ) (mk : κ → List α → β)
    (rows : List α) : List β :=
  ((rows.map key).dedup).map (fun k => mk k (rows.filter (fun r => decide (key r = k))))

/-- The grouped rows of `team_scores_per_team_sq`. -/
def teamRows (db : DB) (eid : Nat) : List TeamRow :=
  sqlGroup keyOf
    (fun k grp => ⟨k.debate_id, k.position, k.es_id, k.scores_published,
                   (grp.map (fun j => j.score)).sum, grp.length⟩)
    (speechJoinRows db eid)

/-- The rows of `team_scores_per_team_sq` with `speech_count = 2`
(the WHERE clauses of src/app.py:1441 and src/app.py:1466). -/
def teamRows2 (db : DB) (eid : Nat) : List TeamRow :=
  (teamRows db eid).filter (fun t => decide (t.speech_count = 2))

/-- `complete_debates_sq` (src/app.py:1439-1445): debates having four grouped
rows with `speech_count = 2`. -/
def completeDebateIds (db : DB) (eid : Nat) : List Nat :=
  (((teamRows2 db eid).map (fun t => t.debate_id)).dedup).filter
    (fun d => decide (((teamRows2 db eid).filter (fun t => decide (t.debate_id = d))).length = 4))

/-- One row of `ranked_sq` (src/app.py:1451-1468). -/
structure RankedRow where
  debate_id : Nat
  es_id : Nat
  team_total : Int
  scores_published : Bool
  rnk : Nat
deriving DecidableEq

/-- The FROM rows of `ranked_sq` (src/app.py:1451-1468): rows with
`speech_count = 2` joined to the complete debates. -/
def rankedBase (db : DB) (eid : Nat) : List TeamRow :=
  (teamRows db eid).filter
    (fun t => decide (t.speech_count = 2 ∧ t.debate_id ∈ completeDebateIds db eid))

/-- `ranked_sq`: the complete-debate rows with a SQL `rank()` over the
partition by debate, ordered by team total descending: the rank is one plus
the number of rows of the same debate with a strictly larger total. -/
def rankedRows (db : DB) (eid : Nat) : List RankedRow :=
  (rankedBase db eid).map (fun t =>
    ⟨t.debate_id, t.es_id, t.team_total, t.scores_published,
     1 + ((rankedBase db eid).filter
        (fun u => decide (u.debate_id = t.debate_id ∧ t.team_total < u.team_total))).length⟩)

/-- `points_expr` (src/app.py:1471-1476): the 3/2/1/0 mapping of ranks. -/
def pointsOfRank (r : Nat) : Int :=
  if r = 1 then 3 else if r = 2 then 2 else if r = 3 then 1 else 0

/-- `firsts_expr` (src/app.py:1477). -/
def firstsOfRank (r : Nat) : Int :=
  if r = 1 then 1 else 0

/-- `seconds_expr` (src/app.py:1478). -/
def secondsOfRank (r : Nat) : Int :=
  if r = 2 then 1 else 0

/-- `sp_expr` (src/app.py:1479-1482): a row's team total counts toward
speaker points only when its round's scores are published. -/
def spOfRow (t : RankedRow) : Int :=
  if t.scores_published then t.team_total else 0

/-- One row of `standings_sq` (src/app.py:1488-1499). -/
structure AggRow where
  es_id : Nat
  points : Int
  speaker_points : Int
  firsts : Int
  seconds : Int
  debates : Nat
deriving DecidableEq

/-- `standings_sq`: accumulation per registration of points, speaker points,
firsts, seconds and the count of contributing rows. -/
def standingsAgg (db : DB) (eid : Nat) : List AggRow :=
  sqlGroup (fun t => t.es_id)
    (fun e grp => ⟨e,
      (grp.map (fun t => pointsOfRank t.rnk)).sum,
      (grp.map spOfRow).sum,
      (grp.map (fun t => firstsOfRank t.rnk)).sum,
      (grp.map (fun t => secondsOfRank t.rnk)).sum,
      grp.length⟩)
    (rankedRows db eid)

/-- Leading-whitespace removal on a character list (structural model of
the trimming primitive). -/
def trimLeftChars : List Char → List Char
  | [] => []
  | c :: cs => if c.isWhitespace then trimLeftChars cs else c :: cs

/-- SQL `trim` / Python `strip`: surrounding whitespace removed. -/
def sqlTrim (s : String) : String :=
  ⟨(trimLeftChars ((trimLeftChars s.data).reverse)).reverse⟩

/-- Lexicographic code-point comparison of character lists: the text
ordering used for `ORDER BY short_name ASC`. -/
def charListLe : List Char → List Char → Bool
  | [], _ => true
  | _ :: _, [] => false
  | a :: as, b :: bs => if a = b then charListLe as bs else decide (a < b)

/-- Text comparison of strings by code point. -/
def strLe (a b : String) : Bool :=
  charListLe a.data b.data

/-- One row of `base_q` (src/app.py:1505-1517). -/
structure BaseRow where
  es_id : Nat
  society_id : Nat
  short_name : Option String
deriving DecidableEq

/-- `base_q`: the registrations of the edition joined to their societies,
excluding societies whose trimmed short name (null as empty) is
"Independente" (src/app.py:1505-1517). -/
def baseRows (db : DB) (eid : Nat) : List BaseRow :=
  db.edition_societies.flatMap (fun es =>
    if es.edition_id = eid then
      db.societies.flatMap (fun soc =>
        if soc.id = es.society_id then
          if sqlTrim (soc.short_name.getD "") ≠ "Independente" then
            [⟨es.id, soc.id, soc.short_name⟩]
          else []
        else [])
    else [])

/-- One row of `final_q` before JSON conversion (src/app.py:1519-1538). -/
structure FinalRow where
  edsoc_id : Nat
  society_id : Nat
  short_name : Option String
  points : Int
  speaker_points : Int
  firsts : Int
  seconds : Int
  debates : Nat
deriving DecidableEq

/-- The LEFT JOIN of `base_q` with `standings_sq` with COALESCE defaults
(src/app.py:1519-1530), before ordering. -/
def finalRows (db : DB) (eid : Nat) : List FinalRow :=
  (baseRows db eid).map (fun b =>
    match (standingsAgg db eid).find? (fun a => decide (a.es_id = b.es_id)) with
    | some a => ⟨b.es_id, b.society_id, b.short_name,
                 a.points, a.speaker_points, a.firsts, a.seconds, a.debates⟩
    | none => ⟨b.es_id, b.society_id, b.short_name, 0, 0, 0, 0, 0⟩)

/-- Ascending comparison of nullable short names, SQL semantics: NULLs sort
last (`base_q.c.short_name.asc()` on a nullable column, src/app.py:1536). -/
def nameLeB : Option String → Option String → Bool
  | _, none => true
  | none, some _ => false
  | some a, some b => strLe a b

/-- One ORDER BY level, descending on an integer key: equal keys defer to
the remaining levels. -/
def lexLe (x y : Int) (rest : Bool) : Bool :=
  if x = y then rest else decide (y < x)

/-- The ORDER BY comparator of `final_q` (src/app.py:1531-1537): points
descending, speaker points descending, firsts descending, seconds
descending, then short name ascending. -/
def rowLeB (a b : FinalRow) : Bool :=
  lexLe a.points b.points
    (lexLe a.speaker_points b.speaker_points
      (lexLe a.firsts b.firsts
        (lexLe a.seconds b.seconds
          (nameLeB a.short_name b.short_name))))

/-- The sorted `final_q` rows (stable sort under the ORDER BY comparator). -/
def sortedFinalRows (db : DB) (eid : Nat) : List FinalRow :=
  List.insertionSort (fun a b => rowLeB a b = true) (finalRows db eid)

/-- One row of the JSON payload of `api_standings` (src/app.py:1542-1554). -/
structure StandingRow where
  edsoc_id : Nat
  society_id : Nat
  short_name : String
  points : Int
  speaker_points : Int
  firsts : Int
  seconds : Int
  debates : Nat
deriving DecidableEq

/-- JSON conversion of one final row: the short name is trimmed
(`(sn or "").strip()`, src/app.py:1546). -/
def toStandingRow (f : FinalRow) : StandingRow :=
  ⟨f.edsoc_id, f.society_id, sqlTrim (f.short_name.getD ""),
   f.points, f.speaker_points, f.firsts, f.seconds, f.debates⟩

/-- The standings payload for a resolved edition. -/
def standingsForEdition (db : DB) (eid : Nat) : List StandingRow :=
  (sortedFinalRows db eid).map toStandingRow

/-- `api_standings` (src/app.py:1380-1557): resolve the edition parameter;
an unresolved edition yields the empty payload (src/app.py:1397-1398). -/
def api_standings (db : DB) (p : EditionParam) : List StandingRow :=
  match resolveEdition db p with
  | none => []
  | some ed => standingsForEdition db ed.id

/-- Sort key of the per-debate ranking in `view_results_list`
(src/app.py:873): negated total for scored sides, a large sentinel for
sides without a total. -/
def sortKeyRL (t : Option Int) : Int :=
  match t with
  | some v => -v
  | none => 10 ^ 9

/-- `order_for_rank` (src/app.py:871-874): the sides sorted by the key,
ascending and stable (Python's `sorted`), starting from the fixed side
order OG, OO, CG, CO. -/
def order_for_rank (totals : Pos → Option Int) : List Pos :=
  List.insertionSort (fun p q => sortKeyRL (totals p) ≤ sortKeyRL (totals q)) allPos

/-- `rank_by_pos` (src/app.py:875): one plus the index of the side in the
sorted order. -/
def rank_by_pos (totals : Pos → Option Int) (p : Pos) : Nat :=
  (order_for_rank totals).indexOf p + 1

/-- Per-side totals as computed by `team_totals_subq` (src/app.py:777-793):
a side has a total only when it carries exactly two speeches with non-null
score, and the total is the sum of those scores. -/
def totals_map (speeches : Pos → List (Option Int)) (p : Pos) : Option Int :=
  if ((speeches p).filter (fun s => s.isSome)).length = 2 then
    some ((speeches p).filterMap id).sum
  else none

/-- Number of speeches of one debate and side carrying a non-null score
(the quantity grouped and counted by `team_scores_per_team_sq`). -/
def scoredCount (db : DB) (did : Nat) (p : Pos) : Nat :=
  (db.speeches.filter
    (fun s => decide (s.debate_id = did ∧ s.position = p ∧ s.score ≠ none))).length

/-- Completeness of a debate as the specification words it: all four sides
have an assigned society and each side has exactly two speeches with
non-null scores. -/
def debateComplete (db : DB) (deb : Debate) : Prop :=
  ∀ p ∈ allPos,
    (∃ dp ∈ db.debate_positions, dp.debate_id = deb.id ∧ dp.position = p) ∧
    scoredCount db deb.id p = 2

instance decidableDebateComplete (db : DB) (deb : Debate) :
    Decidable (debateComplete db deb) :=
  inferInstanceAs (Decidable (∀ p ∈ allPos,
    (∃ dp ∈ db.debate_positions, dp.debate_id = deb.id ∧ dp.position = p) ∧
    scoredCount db deb.id p = 2))

/-- Comparator that the claim about output ordering asserts, worded on the
output rows themselves (trimmed short name ascending as the final key). -/
def claimRowLe (a b : StandingRow) : Bool :=
  lexLe a.points b.points
    (lexLe a.speaker_points b.speaker_points
      (lexLe a.firsts b.firsts
        (lexLe a.seconds b.seconds
          (strLe a.short_name b.short_name))))

/-- Sortedness of the output in the sense of the ordering claim. -/
def claimSorted (l : List StandingRow) : Prop :=
  List.Pairwise (fun a b => claimRowLe a b = true) l

/-- Concrete snapshot: edition 2025, four competing societies plus an
"Independente" placeholder, a published round with the specification's
concrete scoring scenario and a second, unpublished round. -/
def exDB : DB :=
  { editions := [⟨1, 2025⟩]
    societies := [⟨1, "Alpha", some "Alpha"⟩, ⟨2, "Beta", some "Beta"⟩,
                  ⟨3, "Gamma", some "Gamma"⟩, ⟨4, "Delta", some "Delta"⟩,
                  ⟨5, "Indep", some "Independente"⟩]
    edition_societies := [⟨1, 1, 1⟩, ⟨2, 1, 2⟩, ⟨3, 1, 3⟩, ⟨4, 1, 4⟩, ⟨5, 1, 5⟩]
    rounds := [⟨1, 1, 1, false, true⟩, ⟨2, 1, 2, false, false⟩]
    debates := [⟨1, 1, 1⟩, ⟨2, 2, 1⟩]
    debate_positions :=
      [⟨1, Pos.OG, 1⟩, ⟨1, Pos.OO, 2⟩, ⟨1, Pos.CG, 3⟩, ⟨1, Pos.CO, 4⟩,
       ⟨2, Pos.OG, 1⟩, ⟨2, Pos.OO, 2⟩, ⟨2, Pos.CG, 3⟩, ⟨2, Pos.CO, 4⟩]
    speeches :=
      [⟨1, Pos.OG, 1, some 70⟩, ⟨1, Pos.OG, 2, some 72⟩,
       ⟨1, Pos.OO, 1, some 65⟩, ⟨1, Pos.OO, 2, some 68⟩,
       ⟨1, Pos.CG, 1, some 80⟩, ⟨1, Pos.CG, 2, some 78⟩,
       ⟨1, Pos.CO, 1, some 60⟩, ⟨1, Pos.CO, 2, some 61⟩,
       ⟨2, Pos.OG, 1, some 75⟩, ⟨2, Pos.OG, 2, some 75⟩,
       ⟨2, Pos.OO, 1, some 70⟩, ⟨2, Pos.OO, 2, some 70⟩,
       ⟨2, Pos.CG, 1, some 60⟩, ⟨2, Pos.CG, 2, some 60⟩,
       ⟨2, Pos.CO, 1, some 55⟩, ⟨2, Pos.CO, 2, some 56⟩] }

/-- Concrete snapshot with a tied debate: OG and OO both total 160 in the
single fully-scored debate of the single non-silent round. -/
def exDBtie : DB :=
  { editions := [⟨1, 2025⟩]
    societies := [⟨1, "Alpha", some "Alpha"⟩, ⟨2, "Beta", some "Beta"⟩,
                  ⟨3, "Gamma", some "Gamma"⟩, ⟨4, "Delta", some "Delta"⟩]
    edition_societies := [⟨1, 1, 1⟩, ⟨2, 1, 2⟩, ⟨3, 1, 3⟩, ⟨4, 1, 4⟩]
    rounds := [⟨1, 1, 1, false, true⟩]
    debates := [⟨1, 1, 1⟩]
    debate_positions :=
      [⟨1, Pos.OG, 1⟩, ⟨1, Pos.OO, 2⟩, ⟨1, Pos.CG, 3⟩, ⟨1, Pos.CO, 4⟩]
    speeches :=
      [⟨1, Pos.OG, 1, some 80⟩, ⟨1, Pos.OG, 2, some 80⟩,
       ⟨1, Pos.OO, 1, some 80⟩, ⟨1, Pos.OO, 2, some 80⟩,
       ⟨1, Pos.CG, 1, some 75⟩, ⟨1, Pos.CG, 2, some 75⟩,
       ⟨1, Pos.CO, 1, some 70⟩, ⟨1, Pos.CO, 2, some 70⟩] }

/-- Concrete snapshot with a NULL short name: two registered societies,
one of them with `short_name = NULL`, and no debates at all. -/
def exDBnull : DB :=
  { editions := [⟨1, 2025⟩]
    societies := [⟨1, "Alpha", some "Alpha"⟩, ⟨2, "Beta", none⟩]
    edition_societies := [⟨1, 1, 1⟩, ⟨2, 1, 2⟩]
    rounds := [], debates := [], debate_positions := [], speeches := [] }

/-- Concrete snapshot with one registered society and no debates. -/
def exDBbare : DB :=
  { editions := [⟨1, 2025⟩]
    societies := [⟨1, "Alpha", some "Alpha"⟩]
    edition_societies := [⟨1, 1, 1⟩]
    rounds := [], debates := [], debate_positions := [], speeches := [] }

/-- The empty snapshot: no edition exists at all. -/
def exDBempty : DB := ⟨[], [], [], [], [], [], []⟩

/-- The specification's concrete per-debate totals: OG 142, OO 133,
CG 158, CO 121. -/
def exTotals : Pos → Option Int
  | Pos.OG => some 142
  | Pos.OO => some 133
  | Pos.CG => some 158
  | Pos.CO => some 121

/-- Totals with two undefined sides and two equal defined sides. -/
def exTotalsPartial : Pos → Option Int
  | Pos.OG => none
  | Pos.OO => some 133
  | Pos.CG => none
  | Pos.CO => some 133

/-- The specification's per-side speech scores for the concrete scenario. -/
def exSpeeches : Pos → List (Option Int)
  | Pos.OG => [some 70, some 72]
  | Pos.OO => [some 65, some 68]
  | Pos.CG => [some 80, some 78]
  | Pos.CO => [some 60, some 61]

/-- Membership in a grouped listing: one row per distinct key. -/
theorem mem_sqlGroup {α κ β : Type} [DecidableEq κ] (key : α → κ) (mk : κ → List α → β)
    (rows : List α) (b : β) :
    b ∈ sqlGroup key mk rows ↔
      ∃ k ∈ (rows.map key).dedup, b = mk k (rows.filter (fun r => decide (key r = k))) := by
  simp only [sqlGroup, List.mem_map]
  constructor
  · rintro ⟨k, hk, rfl⟩; exact ⟨k, hk, rfl⟩
  · rintro ⟨k, hk, rfl⟩; exact ⟨k, hk, rfl⟩

/-- A flatMap with an if-guard is a flatMap over the filtered list. -/
theorem flatMap_if_filter {α β : Type} (P : α → Prop) [DecidablePred P] (G : α → List β) :
    ∀ l : List α, (l.flatMap (fun x => if P x then G x else [])) =
      (l.filter (fun x => decide (P x))).flatMap G := by
  intro l
  induction l with
  | nil => rfl
  | cons x xs ih =>
    by_cases h : P x
    · simp [List.filter_cons, h, ih]
    · simp [List.filter_cons, h, ih]

/-- A flatMap producing guarded singletons is a map over the filtered list. -/
theorem flatMap_if_singleton {α β : Type} (P : α → Prop) [DecidablePred P] (g : α → β) :
    ∀ l : List α, (l.flatMap (fun x => if P x then [g x] else [])) =
      (l.filter (fun x => decide (P x))).map g := by
  intro l
  induction l with
  | nil => rfl
  | cons x xs ih =>
    by_cases h : P x
    · simp [List.filter_cons, h, ih]
    · simp [List.filter_cons, h, ih]

/-- In a list with pairwise-distinct keys, the filter for the key of a
member keeps exactly that member. -/
theorem filter_eq_single {α κ : Type} [DecidableEq κ] (key : α → κ) :
    ∀ (l : List α), (l.map key).Nodup → ∀ (a : α), a ∈ l →
      ∀ (P : α → Prop) [DecidablePred P], (∀ x ∈ l, P x ↔ key x = key a) →
      l.filter (fun x => decide (P x)) = [a] := by
  intro l
  induction l with
  | nil => intro _ a ha; cases ha
  | cons x xs ih =>
    intro hnd a ha P hdp hiff
    rw [List.map_cons, List.nodup_cons] at hnd
    obtain ⟨hx, hnd'⟩ := hnd
    rcases List.mem_cons.1 ha with rfl | ha'
    · have hPa : P a := (hiff a (List.mem_cons_self a xs)).2 rfl
      have hnil : xs.filter (fun x => decide (P x)) = [] := by
        refine List.filter_eq_nil_iff.2 (fun y hy hPy => ?_)
        have hkey : key y = key a :=
          (hiff y (List.mem_cons_of_mem _ hy)).1 (of_decide_eq_true hPy)
        exact hx (hkey ▸ List.mem_map_of_mem key hy)
      simp [List.filter_cons, hPa, hnil]
    · have hxP : ¬ P x := by
        intro hPx
        have hkey : key x = key a := (hiff x (List.mem_cons_self x xs)).1 hPx
        exact hx (hkey ▸ List.mem_map_of_mem key ha')
      have hrest := ih hnd' a ha' P (fun y hy => hiff y (List.mem_cons_of_mem _ hy))
      simp [List.filter_cons, hxP, hrest]

/-- Summing an indicator of a key over a duplicate-free list of keys. -/
theorem sum_map_ite_zero {κ β : Type} [DecidableEq κ] [AddCommMonoid β] :
    ∀ (K : List κ), K.Nodup → ∀ (k0 : κ), k0 ∈ K → ∀ (v : β),
      (K.map (fun k => if k0 = k then v else 0)).sum = v := by
  intro K
  induction K with
  | nil => intro _ k0 hk; cases hk
  | cons x xs ih =>
    intro hnd k0 hk v
    rw [List.nodup_cons] at hnd
    rcases List.mem_cons.1 hk with rfl | hk'
    · rw [List.map_cons, List.sum_cons, if_pos rfl]
      have hz : (xs.map (fun k => if k0 = k then v else 0)).sum = 0 := by
        refine List.sum_eq_zero (fun y hy => ?_)
        rw [List.mem_map] at hy
        obtain ⟨k, hkmem, rfl⟩ := hy
        rw [if_neg]
        rintro rfl
        exact hnd.1 hkmem
      rw [hz, add_zero]
    · have hne : k0 ≠ x := by rintro rfl; exact hnd.1 hk'
      rw [List.map_cons, List.sum_cons, if_neg hne, zero_add]
      exact ih hnd.2 k0 hk' v

/-- Members of a map with a sum over each key's fiber, for any covering
duplicate-free key list, add up to the plain sum. -/
theorem sum_partition_aux {α κ β : Type} [DecidableEq κ] [AddCommMonoid β]
    (key : α → κ) (f : α → β) :
    ∀ (rows : List α) (K : List κ), K.Nodup → (∀ r ∈ rows, key r ∈ K) →
      (K.map (fun k => ((rows.filter (fun r => decide (key r = k))).map f).sum)).sum
        = (rows.map f).sum := by
  intro rows
  induction rows with
  | nil =>
    intro K _ _
    have : ∀ k ∈ K, (((List.nil.filter (fun r => decide (key r = k))).map f).sum : β) = 0 := by
      intro k _; rfl
    rw [List.map_congr_left this]
    simp
  | cons r rs ih =>
    intro K hnd hcov
    have hrK : key r ∈ K := hcov r (List.mem_cons_self _ _)
    have hstep : ∀ k ∈ K, (((r :: rs).filter (fun x => decide (key x = k))).map f).sum
        = (if key r = k then f r else 0)
          + ((rs.filter (fun x => decide (key x = k))).map f).sum := by
      intro k _
      by_cases h : key r = k
      · simp [List.filter_cons, h]
      · simp [List.filter_cons, h]
    rw [List.map_congr_left hstep, List.sum_map_add,
      sum_map_ite_zero K hnd (key r) hrK (f r),
      ih K hnd (fun x hx => hcov x (List.mem_cons_of_mem _ hx)),
      List.map_cons, List.sum_cons]

/-- SQL GROUP BY sums partition the plain sum. -/
theorem sum_partition {α κ β : Type} [DecidableEq κ] [AddCommMonoid β]
    (key : α → κ) (f : α → β) (rows : List α) :
    ((rows.map key).dedup.map
        (fun k => ((rows.filter (fun r => decide (key r = k))).map f).sum)).sum
      = (rows.map f).sum :=
  sum_partition_aux key f rows _ (List.nodup_dedup _)
    (fun r hr => List.mem_dedup.2 (List.mem_map_of_mem key hr))

/-- A sum over a list splits into the sums over a filter and its complement. -/
theorem sum_filter_split {α β : Type} [AddCommMonoid β] (p : α → Bool) (f : α → β) :
    ∀ l : List α, (l.map f).sum
      = ((l.filter p).map f).sum + ((l.filter (fun x => ! p x)).map f).sum := by
  intro l
  induction l with
  | nil => simp
  | cons x xs ih =>
    by_cases h : p x = true
    · simp [List.filter_cons, h, ih, add_assoc]
    · simp [List.filter_cons, h, ih, add_left_comm]

/-- In a strictly descending list, the count of strictly greater values
enumerates the indices in order. -/
theorem counts_of_sorted_desc {α : Type} (v : α → Int) :
    ∀ L : List α, List.Pairwise (fun a b => v b < v a) L →
      L.map (fun t => (L.filter (fun u => decide (v t < v u))).length)
        = List.range L.length := by
  intro L
  induction L with
  | nil => simp
  | cons x xs ih =>
    intro hp
    obtain ⟨hx, hp'⟩ := List.pairwise_cons.1 hp
    have hhead : ((x :: xs).filter (fun u => decide (v x < v u))).length = 0 := by
      rw [List.length_eq_zero]
      refine List.filter_eq_nil_iff.2 (fun a ha hlt => ?_)
      rcases List.mem_cons.1 ha with rfl | ha'
      · exact lt_irrefl _ (of_decide_eq_true hlt)
      · exact absurd (of_decide_eq_true hlt) (not_lt.2 (le_of_lt (hx a ha')))
    have htail : ∀ t ∈ xs, ((x :: xs).filter (fun u => decide (v t < v u))).length
        = ((xs.filter (fun u => decide (v t < v u))).length) + 1 := by
      intro t ht
      have hlt : v t < v x := hx t ht
      simp [List.filter_cons, hlt]
    rw [List.map_cons, hhead, List.map_congr_left htail, List.length_cons,
      List.range_succ_eq_map]
    have hmm : xs.map (fun t => ((xs.filter (fun u => decide (v t < v u))).length) + 1)
        = (xs.map (fun t => (xs.filter (fun u => decide (v t < v u))).length)).map
            (fun n => n + 1) := by
      rw [List.map_map]; rfl
    rw [hmm, ih hp']

/-- With pairwise distinct values, the counts of strictly greater values
form a permutation of the index range.  This is the SQL `rank()` invariant:
distinct totals force the ranks 1..n. -/
theorem counts_perm {α : Type} (v : α → Int) (L : List α)
    (hd : List.Pairwise (fun a b => v a ≠ v b) L) :
    (L.map (fun t => (L.filter (fun u => decide (v t < v u))).length)).Perm
      (List.range L.length) := by
  classical
  haveI : IsTotal α (fun a b => v b ≤ v a) := ⟨fun a b => Int.le_total (v b) (v a)⟩
  haveI : IsTrans α (fun a b => v b ≤ v a) := ⟨fun _ _ _ h1 h2 => le_trans h2 h1⟩
  set M := List.insertionSort (fun a b => v b ≤ v a) L with hM
  have hperm : M.Perm L := List.perm_insertionSort _ L
  have hsorted : List.Pairwise (fun a b => v b ≤ v a) M := List.sorted_insertionSort _ L
  have hdM : List.Pairwise (fun a b => v a ≠ v b) M :=
    (hperm.pairwise_iff (fun h => fun e => h e.symm)).2 hd
  have hstrict : List.Pairwise (fun a b => v b < v a) M :=
    (hsorted.and hdM).imp (fun h => lt_of_le_of_ne h.1 (fun e => h.2 e.symm))
  have hcount : ∀ t : α, (L.filter (fun u => decide (v t < v u))).length
      = (M.filter (fun u => decide (v t < v u))).length :=
    fun t => ((hperm.filter _).length_eq).symm
  have h1 : (L.map (fun t => (L.filter (fun u => decide (v t < v u))).length)).Perm
      (M.map (fun t => (L.filter (fun u => decide (v t < v u))).length)) :=
    (hperm.map _).symm
  have h2 : M.map (fun t => (L.filter (fun u => decide (v t < v u))).length)
      = M.map (fun t => (M.filter (fun u => decide (v t < v u))).length) :=
    List.map_congr_left (fun t _ => hcount t)
  have h3 := counts_of_sorted_desc v M hstrict
  rw [h2, h3] at h1
  rw [← hperm.length_eq]
  exact h1

/-- Inserting an element before its upper bounds preserves a sublist
headed by that element: the stability core of insertion sort. -/
theorem orderedInsert_sublist_cons {α : Type} (r : α → α → Prop) [DecidableRel r] (x : α) :
    ∀ (m c : List α), c.Sublist m → (∀ y ∈ c, r x y) →
      (x :: c).Sublist (List.orderedInsert r x m) := by
  intro m
  induction m with
  | nil =>
    intro c hc _
    rw [List.sublist_nil.1 hc]
    exact List.Sublist.refl _
  | cons b m' ih =>
    intro c hc hr
    by_cases hxb : r x b
    · rw [List.orderedInsert, if_pos hxb]
      exact List.Sublist.cons₂ x hc
    · rw [List.orderedInsert, if_neg hxb]
      cases hc with
      | cons _ hc' => exact List.Sublist.cons b (ih _ hc' hr)
      | cons₂ _ hc' => exact absurd (hr b (List.mem_cons_self _ _)) hxb

/-- Stability of insertion sort: a sublist already ordered by the sort
relation survives sorting (Python's `sorted` is stable in the same sense). -/
theorem sublist_insertionSort_stable {α : Type} (r : α → α → Prop) [DecidableRel r] :
    ∀ (l c : List α), List.Pairwise r c → c.Sublist l →
      c.Sublist (List.insertionSort r l) := by
  intro l
  induction l with
  | nil =>
    intro c _ hc
    rw [List.sublist_nil.1 hc]
    exact List.Sublist.refl _
  | cons x xs ih =>
    intro c hp hc
    cases hc with
    | cons _ hc' =>
      exact (ih c hp hc').trans (List.sublist_orderedInsert x _)
    | cons₂ _ hc' =>
      obtain ⟨hx, hp'⟩ := List.pairwise_cons.1 hp
      exact orderedInsert_sublist_cons r x _ _ (ih _ hp' hc') hx

/-- In a duplicate-free list, a two-element sublist fixes the order of the
two indices. -/
theorem indexOf_lt_of_sublist_pair {α : Type} [DecidableEq α] :
    ∀ (l : List α), l.Nodup → ∀ p q : α, [p, q].Sublist l →
      l.indexOf p < l.indexOf q := by
  intro l
  induction l with
  | nil =>
    intro _ p q h
    exact absurd (h.subset (List.mem_cons_self _ _)) (List.not_mem_nil p)
  | cons x xs ih =>
    intro hnd p q hsub
    obtain ⟨hx, hnd'⟩ := List.nodup_cons.1 hnd
    cases hsub with
    | cons _ h' =>
      have hp : p ∈ xs := h'.subset (List.mem_cons_self _ _)
      have hq : q ∈ xs := h'.subset (List.mem_cons_of_mem _ (List.mem_cons_self _ _))
      have hxp : x ≠ p := by rintro rfl; exact hx hp
      have hxq : x ≠ q := by rintro rfl; exact hx hq
      rw [List.indexOf_cons_ne _ hxp, List.indexOf_cons_ne _ hxq]
      exact Nat.succ_lt_succ (ih hnd' p q h')
    | cons₂ _ h' =>
      have hq : q ∈ xs := h'.subset (List.mem_cons_self _ _)
      have hxq : x ≠ q := by rintro rfl; exact hx hq
      rw [List.indexOf_cons_self, List.indexOf_cons_ne _ hxq]
      exact Nat.succ_pos _

/-- In a list sorted by a reflexive relation, an element that does not
relate to another comes strictly after it. -/
theorem indexOf_lt_of_sorted {α : Type} [DecidableEq α] (R : α → α → Prop)
    (hrefl : ∀ a, R a a) :
    ∀ (l : List α), List.Pairwise R l → ∀ p q : α, p ∈ l → q ∈ l → ¬ R p q →
      l.indexOf q < l.indexOf p := by
  intro l
  induction l with
  | nil => intro _ p q hp; cases hp
  | cons x xs ih =>
    intro hpair p q hp hq hnpq
    obtain ⟨hx, hpair'⟩ := List.pairwise_cons.1 hpair
    rcases List.mem_cons.1 hp with hpx | hp'
    · rcases List.mem_cons.1 hq with hqx | hq'
      · exact absurd (by rw [hpx, hqx]; exact hrefl x) hnpq
      · exact absurd (by rw [hpx]; exact hx q hq') hnpq
    · have hxp : x ≠ p := by
        intro e
        rcases List.mem_cons.1 hq with hqx | hq'
        · exact hnpq (by rw [← e, hqx]; exact hrefl x)
        · exact hnpq (by rw [← e]; exact hx q hq')
      by_cases hxq : x = q
      · subst hxq
        rw [List.indexOf_cons_self, List.indexOf_cons_ne _ hxp]
        exact Nat.succ_pos _
      · have hq'' : q ∈ xs := by
          rcases List.mem_cons.1 hq with hqx | h
          · exact absurd hqx.symm hxq
          · exact h
        rw [List.indexOf_cons_ne _ hxq, List.indexOf_cons_ne _ hxp]
        exact Nat.succ_lt_succ (ih hpair' p q hp' hq'' hnpq)

/-- Mapping successor-of-index over a duplicate-free four-element list
enumerates 1, 2, 3, 4. -/
theorem map_indexOf_succ_four {α : Type} [DecidableEq α] (l : List α)
    (hnd : l.Nodup) (hlen : l.length = 4) :
    l.map (fun p => l.indexOf p + 1) = [1, 2, 3, 4] := by
  match l, hlen with
  | [a, b, c, d], _ =>
    simp only [List.nodup_cons, List.mem_cons, List.mem_singleton, List.not_mem_nil,
      or_false, not_or, List.nodup_nil, and_true] at hnd
    obtain ⟨⟨hab, hac, had⟩, ⟨hbc, hbd⟩, hcd, -⟩ := hnd
    have h1 : List.indexOf a [a, b, c, d] = 0 := List.indexOf_cons_self a _
    have h2 : List.indexOf b [a, b, c, d] = 1 := by
      rw [List.indexOf_cons_ne _ hab, List.indexOf_cons_self]
    have h3 : List.indexOf c [a, b, c, d] = 2 := by
      rw [List.indexOf_cons_ne _ hac, List.indexOf_cons_ne _ hbc, List.indexOf_cons_self]
    have h4 : List.indexOf d [a, b, c, d] = 3 := by
      rw [List.indexOf_cons_ne _ had, List.indexOf_cons_ne _ hbd,
        List.indexOf_cons_ne _ hcd, List.indexOf_cons_self]
    simp [h1, h2, h3, h4]

/-- The ranking order is a permutation of the four sides. -/
theorem order_for_rank_perm (totals : Pos → Option Int) :
    (order_for_rank totals).Perm allPos :=
  List.perm_insertionSort _ _

/-- The ranking order has no duplicate sides. -/
theorem order_for_rank_nodup (totals : Pos → Option Int) :
    (order_for_rank totals).Nodup :=
  List.Perm.nodup (order_for_rank_perm totals).symm (by decide)

/-- Every side appears in the ranking order. -/
theorem mem_order_for_rank (totals : Pos → Option Int) (p : Pos) :
    p ∈ order_for_rank totals :=
  (order_for_rank_perm totals).mem_iff.2 (by cases p <;> decide)

/-- The ranking order is sorted by the sort key, ascending. -/
theorem order_for_rank_sorted (totals : Pos → Option Int) :
    List.Pairwise (fun p q => sortKeyRL (totals p) ≤ sortKeyRL (totals q))
      (order_for_rank totals) := by
  haveI : IsTotal Pos (fun p q => sortKeyRL (totals p) ≤ sortKeyRL (totals q)) :=
    ⟨fun a b => Int.le_total _ _⟩
  haveI : IsTrans Pos (fun p q => sortKeyRL (totals p) ≤ sortKeyRL (totals q)) :=
    ⟨fun _ _ _ h1 h2 => le_trans h1 h2⟩
  exact List.sorted_insertionSort _ _

/-- C7.  For every debate in which all four distinct sides each hold
exactly two non-null scores in [50,100], the per-debate result
(`rank_by_pos` of `view_results_list`) assigns the four sides a
permutation of the ranks {1,2,3,4} with no duplicates, and a side with
the strictly highest total always receives rank 1. -/
theorem C7_rank_permutation (speeches : Pos → List (Option Int))
    (h : ∀ p : Pos, (speeches p).length = 2 ∧
      ∀ s ∈ speeches p, ∃ v : Int, s = some v ∧ 50 ≤ v ∧ v ≤ 100) :
    ((allPos.map (rank_by_pos (totals_map speeches))).Perm [1, 2, 3, 4])
    ∧ ∀ p : Pos, (∀ q : Pos, q ≠ p →
        ((speeches q).filterMap id).sum < ((speeches p).filterMap id).sum) →
        rank_by_pos (totals_map speeches) p = 1 := by
  set totals := totals_map speeches with htotals
  have hdef : ∀ p : Pos, totals p = some (((speeches p).filterMap id).sum) := by
    intro p
    have hall : (speeches p).filter (fun s => s.isSome) = speeches p :=
      List.filter_eq_self.2 (fun s hs => by
        obtain ⟨v, rfl, -, -⟩ := (h p).2 s hs
        rfl)
    rw [htotals]
    unfold totals_map
    rw [hall, if_pos (h p).1]
  constructor
  · have hperm := order_for_rank_perm totals
    have hnd := order_for_rank_nodup totals
    have hlen : (order_for_rank totals).length = 4 := hperm.length_eq
    have hmap : (order_for_rank totals).map (fun p => (order_for_rank totals).indexOf p + 1)
        = [1, 2, 3, 4] := map_indexOf_succ_four _ hnd hlen
    have hperm2 : (allPos.map (rank_by_pos totals)).Perm
        ((order_for_rank totals).map (rank_by_pos totals)) :=
      List.Perm.map _ hperm.symm
    have heqmap : (order_for_rank totals).map (rank_by_pos totals)
        = (order_for_rank totals).map (fun p => (order_for_rank totals).indexOf p + 1) := rfl
    rw [heqmap, hmap] at hperm2
    exact hperm2
  · intro p hmax
    have hkey : ∀ q : Pos, q ≠ p → sortKeyRL (totals p) < sortKeyRL (totals q) := by
      intro q hq
      rw [hdef p, hdef q]
      simpa [sortKeyRL] using hmax q hq
    have hidx : ∀ q : Pos, q ≠ p →
        (order_for_rank totals).indexOf p < (order_for_rank totals).indexOf q := by
      intro q hq
      refine indexOf_lt_of_sorted
        (fun a b => sortKeyRL (totals a) ≤ sortKeyRL (totals b))
        (fun a => le_refl _) _ (order_for_rank_sorted totals)
        q p (mem_order_for_rank totals q) (mem_order_for_rank totals p) ?_
      exact not_le.2 (hkey q hq)
    have hmem := mem_order_for_rank totals p
    rcases hl : order_for_rank totals with _ | ⟨x, rest⟩
    · rw [hl] at hmem; cases hmem
    · by_cases hxp : x = p
      · subst hxp
        unfold rank_by_pos
        rw [hl, List.indexOf_cons_self]
      · exfalso
        have h0 := hidx x hxp
        rw [hl, List.indexOf_cons_self] at h0
        exact Nat.not_lt_zero _ h0

/-- Witness for C7 on the specification's concrete scenario: CG with the
strictly highest total 158 receives rank 1 and the ranks are 1-4. -/
theorem C7_rank_permutation_witness :
    ((allPos.map (rank_by_pos (totals_map exSpeeches))).Perm [1, 2, 3, 4])
    ∧ rank_by_pos (totals_map exSpeeches) Pos.CG = 1 := by
  have h := C7_rank_permutation exSpeeches (by
    intro p
    cases p <;>
      exact ⟨rfl, by
        intro s hs
        rcases List.mem_cons.1 hs with rfl | hs'
        · exact ⟨_, rfl, by decide, by decide⟩
        · rcases List.mem_cons.1 hs' with rfl | hs''
          · exact ⟨_, rfl, by decide, by decide⟩
          · cases hs''⟩)
  exact ⟨h.1, h.2 Pos.CG (by decide)⟩

/-- C9.  In the per-debate ranking of the results listing, every side
without a total is ranked after every side with a total, and among sides
with equal totals (defined or not) the fixed position order OG, OO, CG,
CO decides, deterministically. -/
theorem C9_undefined_totals_order (totals : Pos → Option Int)
    (hb : ∀ p : Pos, -((totals p).getD 0) < 10 ^ 9)
    (p q : Pos) :
    (∀ v : Int, totals p = none → totals q = some v →
      rank_by_pos totals q < rank_by_pos totals p)
    ∧ (totals p = totals q → List.indexOf p allPos < List.indexOf q allPos →
      rank_by_pos totals p < rank_by_pos totals q) := by
  constructor
  · intro v hp hq
    have hnR : ¬ (sortKeyRL (totals p) ≤ sortKeyRL (totals q)) := by
      have hbq := hb q
      rw [hq] at hbq
      rw [hp, hq]
      simpa [sortKeyRL] using hbq
    have := indexOf_lt_of_sorted
      (fun a b => sortKeyRL (totals a) ≤ sortKeyRL (totals b))
      (fun a => le_refl _) _
      (order_for_rank_sorted totals) p q (mem_order_for_rank totals p)
      (mem_order_for_rank totals q) hnR
    unfold rank_by_pos
    exact Nat.succ_lt_succ this
  · intro heq hidx
    have hsub : [p, q].Sublist allPos := by
      cases p <;> cases q <;> first
        | exact absurd hidx (by decide)
        | decide
    have hpair : List.Pairwise (fun a b => sortKeyRL (totals a) ≤ sortKeyRL (totals b))
        [p, q] := by
      refine List.pairwise_cons.2 ⟨?_, List.pairwise_singleton _ _⟩
      intro b hb'
      rcases List.mem_singleton.1 hb' with rfl
      rw [heq]
    have hstable : [p, q].Sublist (order_for_rank totals) :=
      sublist_insertionSort_stable _ allPos [p, q] hpair hsub
    have := indexOf_lt_of_sublist_pair _ (order_for_rank_nodup totals) p q hstable
    unfold rank_by_pos
    exact Nat.succ_lt_succ this

/-- Witness for C9: with OG and CG unscored and OO, CO tied at 133, OO is
ranked first among the tied pair, CO second, and both come before the
unscored sides, which follow in position order. -/
theorem C9_undefined_totals_order_witness :
    (rank_by_pos exTotalsPartial Pos.OO < rank_by_pos exTotalsPartial Pos.OG)
    ∧ (rank_by_pos exTotalsPartial Pos.OO < rank_by_pos exTotalsPartial Pos.CO)
    ∧ (rank_by_pos exTotalsPartial Pos.OG < rank_by_pos exTotalsPartial Pos.CG) := by
  refine ⟨?_, ?_, ?_⟩
  · exact (C9_undefined_totals_order exTotalsPartial (by decide) Pos.OG Pos.OO).1
      133 (by decide) (by decide)
  · exact (C9_undefined_totals_order exTotalsPartial (by decide) Pos.OO Pos.CO).2
      (by decide) (by decide)
  · exact (C9_undefined_totals_order exTotalsPartial (by decide) Pos.OG Pos.CG).2
      (by decide) (by decide)

/-- Structure of a join row produced by one speech: it carries the
speech's debate, side and score, its debate exists in a non-silent round
of the target edition, and a position assignment for its side exists. -/
theorem mem_joinOfSpeech {db : DB} {eid : Nat} {s : Speech} {j : SpeechJoin}
    (hj : j ∈ joinOfSpeech db eid s) :
    j.debate_id = s.debate_id ∧ j.position = s.position ∧ s.score = some j.score ∧
    (∃ d ∈ db.debates, d.id = s.debate_id ∧
      ∃ r ∈ db.rounds, r.id = d.round_id ∧ r.edition_id = eid ∧ r.silent = false ∧
        r.scores_published = j.scores_published) ∧
    ∃ dp ∈ db.debate_positions, dp.debate_id = s.debate_id ∧ dp.position = s.position ∧
      dp.edition_society_id = j.es_id := by
  cases hs : s.score with
  | none => simp [joinOfSpeech, hs] at hj
  | some sc =>
    simp only [joinOfSpeech, hs, List.mem_flatMap, List.mem_ite_nil_right,
      List.mem_singleton] at hj
    obtain ⟨d, hd, hdid, r, hr, hrid, ⟨hred, hrsil⟩, dp, hdp, ⟨hdpd, hdpp⟩, rfl⟩ := hj
    exact ⟨rfl, rfl, rfl, ⟨d, hd, hdid, r, hr, hrid, hred, hrsil, rfl⟩,
      dp, hdp, hdpd, hdpp, rfl⟩

/-- Every join row comes from some speech of the snapshot. -/
theorem mem_speechJoinRows {db : DB} {eid : Nat} {j : SpeechJoin}
    (hj : j ∈ speechJoinRows db eid) :
    ∃ s ∈ db.speeches, j ∈ joinOfSpeech db eid s := by
  simpa [speechJoinRows, List.mem_flatMap] using hj

/-- Under the primary-key invariants, the join rows of one speech that
carry a given (debate, side, registration, published) key are exactly one
row when the speech is a scored speech of that debate and side, and none
otherwise. -/
theorem joinOfSpeech_filter_key
    (db : DB) (eid : Nat) (deb : Debate) (rd : Round) (dp : DebatePosition)
    (hdnd : (db.debates.map (fun d => d.id)).Nodup)
    (hrnd : (db.rounds.map (fun r => r.id)).Nodup)
    (hdpnd : (db.debate_positions.map (fun x => (x.debate_id, x.position))).Nodup)
    (hdeb : deb ∈ db.debates) (hrd : rd ∈ db.rounds) (hrel : deb.round_id = rd.id)
    (hed : rd.edition_id = eid) (hsil : rd.silent = false)
    (hdp : dp ∈ db.debate_positions) (hdpd : dp.debate_id = deb.id)
    (s : Speech) :
    (joinOfSpeech db eid s).filter
        (fun j => decide (keyOf j =
          ⟨deb.id, dp.position, dp.edition_society_id, rd.scores_published⟩))
      = if s.debate_id = deb.id ∧ s.position = dp.position ∧ s.score ≠ none
        then [⟨deb.id, dp.position, dp.edition_society_id, rd.scores_published,
               s.score.getD 0⟩]
        else [] := by
  by_cases hmain : s.debate_id = deb.id ∧ s.position = dp.position ∧ s.score ≠ none
  · obtain ⟨hsd, hsp, hsc⟩ := hmain
    obtain ⟨sc, hscv⟩ := Option.ne_none_iff_exists'.1 hsc
    rw [if_pos ⟨hsd, hsp, hsc⟩]
    have hstep1 : joinOfSpeech db eid s
        = db.debates.flatMap (fun d =>
            if d.id = s.debate_id then
              db.rounds.flatMap (fun r =>
                if r.id = d.round_id then
                  if r.edition_id = eid ∧ r.silent = false then
                    db.debate_positions.flatMap (fun x =>
                      if x.debate_id = s.debate_id ∧ x.position = s.position then
                        [⟨s.debate_id, s.position, x.edition_society_id,
                          r.scores_published, sc⟩]
                      else [])
                  else []
                else [])
            else []) := by
      simp [joinOfSpeech, hscv]
    have hfd : db.debates.filter (fun d => decide (d.id = s.debate_id)) = [deb] := by
      refine filter_eq_single (fun d => d.id) db.debates hdnd deb hdeb _ ?_
      intro x _
      rw [hsd]
    have hfr : db.rounds.filter (fun r => decide (r.id = deb.round_id)) = [rd] := by
      refine filter_eq_single (fun r => r.id) db.rounds hrnd rd hrd _ ?_
      intro x _
      rw [hrel]
    have hfdp : db.debate_positions.filter
        (fun x => decide (x.debate_id = s.debate_id ∧ x.position = s.position)) = [dp] := by
      refine filter_eq_single (fun x => (x.debate_id, x.position)) db.debate_positions
        hdpnd dp hdp _ ?_
      intro x _
      rw [hsd, hsp, ← hdpd, Prod.mk.injEq]
    rw [hstep1, flatMap_if_filter (fun d : Debate => d.id = s.debate_id), hfd,
      List.flatMap_singleton, flatMap_if_filter (fun r : Round => r.id = deb.round_id), hfr,
      List.flatMap_singleton, if_pos ⟨hed, hsil⟩,
      flatMap_if_singleton (fun x : DebatePosition =>
        x.debate_id = s.debate_id ∧ x.position = s.position),
      hfdp, List.map_singleton]
    have hkeq : keyOf ⟨s.debate_id, s.position, dp.edition_society_id,
        rd.scores_published, sc⟩
        = (⟨deb.id, dp.position, dp.edition_society_id, rd.scores_published⟩ : TeamKey) := by
      rw [keyOf, hsd, hsp]
    simp [List.filter_cons, keyOf, hkeq, hsd, hsp, hscv]
  · rw [if_neg hmain]
    refine List.filter_eq_nil_iff.2 (fun j hj hkey => ?_)
    replace hkey : keyOf j
        = (⟨deb.id, dp.position, dp.edition_society_id, rd.scores_published⟩ : TeamKey) :=
      of_decide_eq_true hkey
    obtain ⟨hjd, hjp, hjs, -, -⟩ := mem_joinOfSpeech hj
    have hkd : j.debate_id = deb.id := congrArg TeamKey.debate_id hkey
    have hkp : j.position = dp.position := congrArg TeamKey.position hkey
    refine hmain ⟨hjd ▸ hkd, hjp ▸ hkp, ?_⟩
    rw [hjs]
    simp

/-- The grouped rows at the key of an assigned side are in bijection with
the scored speeches of that debate and side. -/
theorem group_eq_scored
    (db : DB) (eid : Nat) (deb : Debate) (rd : Round) (dp : DebatePosition)
    (hdnd : (db.debates.map (fun d => d.id)).Nodup)
    (hrnd : (db.rounds.map (fun r => r.id)).Nodup)
    (hdpnd : (db.debate_positions.map (fun x => (x.debate_id, x.position))).Nodup)
    (hdeb : deb ∈ db.debates) (hrd : rd ∈ db.rounds) (hrel : deb.round_id = rd.id)
    (hed : rd.edition_id = eid) (hsil : rd.silent = false)
    (hdp : dp ∈ db.debate_positions) (hdpd : dp.debate_id = deb.id) :
    (speechJoinRows db eid).filter
        (fun j => decide (keyOf j =
          ⟨deb.id, dp.position, dp.edition_society_id, rd.scores_published⟩))
      = (db.speeches.filter (fun s =>
          decide (s.debate_id = deb.id ∧ s.position = dp.position ∧ s.score ≠ none))).map
          (fun s => ⟨deb.id, dp.position, dp.edition_society_id, rd.scores_published,
            s.score.getD 0⟩) := by
  rw [speechJoinRows, List.filter_flatMap]
  rw [List.flatMap_congr (fun s _ =>
    joinOfSpeech_filter_key db eid deb rd dp hdnd hrnd hdpnd hdeb hrd hrel hed hsil
      hdp hdpd s)]
  exact flatMap_if_singleton _ _ _

/-- The size of the group at the key of an assigned side is the number of
scored speeches of that debate and side. -/
theorem group_length_scored
    (db : DB) (eid : Nat) (deb : Debate) (rd : Round) (dp : DebatePosition)
    (hdnd : (db.debates.map (fun d => d.id)).Nodup)
    (hrnd : (db.rounds.map (fun r => r.id)).Nodup)
    (hdpnd : (db.debate_positions.map (fun x => (x.debate_id, x.position))).Nodup)
    (hdeb : deb ∈ db.debates) (hrd : rd ∈ db.rounds) (hrel : deb.round_id = rd.id)
    (hed : rd.edition_id = eid) (hsil : rd.silent = false)
    (hdp : dp ∈ db.debate_positions) (hdpd : dp.debate_id = deb.id) :
    ((speechJoinRows db eid).filter
        (fun j => decide (keyOf j =
          ⟨deb.id, dp.position, dp.edition_society_id, rd.scores_published⟩))).length
      = scoredCount db deb.id dp.position := by
  rw [group_eq_scored db eid deb rd dp hdnd hrnd hdpnd hdeb hrd hrel hed hsil hdp hdpd,
    List.length_map]
  rfl

/-- The key of an assigned side occurs among the join keys exactly when the
side has at least one scored speech. -/
theorem key_mem_iff_scored
    (db : DB) (eid : Nat) (deb : Debate) (rd : Round) (dp : DebatePosition)
    (hdnd : (db.debates.map (fun d => d.id)).Nodup)
    (hrnd : (db.rounds.map (fun r => r.id)).Nodup)
    (hdpnd : (db.debate_positions.map (fun x => (x.debate_id, x.position))).Nodup)
    (hdeb : deb ∈ db.debates) (hrd : rd ∈ db.rounds) (hrel : deb.round_id = rd.id)
    (hed : rd.edition_id = eid) (hsil : rd.silent = false)
    (hdp : dp ∈ db.debate_positions) (hdpd : dp.debate_id = deb.id) :
    ((⟨deb.id, dp.position, dp.edition_society_id, rd.scores_published⟩ : TeamKey)
        ∈ (speechJoinRows db eid).map keyOf)
      ↔ scoredCount db deb.id dp.position ≠ 0 := by
  rw [← group_length_scored db eid deb rd dp hdnd hrnd hdpnd hdeb hrd hrel hed hsil
    hdp hdpd]
  constructor
  · intro hmem
    obtain ⟨j, hj, hkey⟩ := List.mem_map.1 hmem
    intro hlen
    have : j ∈ (speechJoinRows db eid).filter (fun r => decide (keyOf r =
        ⟨deb.id, dp.position, dp.edition_society_id, rd.scores_published⟩)) :=
      List.mem_filter.2 ⟨hj, decide_eq_true hkey⟩
    rw [List.length_eq_zero] at hlen
    rw [hlen] at this
    cases this
  · intro hlen
    rcases hfe : (speechJoinRows db eid).filter (fun r => decide (keyOf r =
        ⟨deb.id, dp.position, dp.edition_society_id, rd.scores_published⟩)) with _ | ⟨j, rest⟩
    · rw [hfe] at hlen
      simp at hlen
    · have hjmem : j ∈ (speechJoinRows db eid).filter (fun r => decide (keyOf r =
          ⟨deb.id, dp.position, dp.edition_society_id, rd.scores_published⟩)) := by
        rw [hfe]
        exact List.mem_cons_self _ _
      obtain ⟨hjrows, hjkey⟩ := List.mem_filter.1 hjmem
      exact List.mem_map.2 ⟨j, hjrows, of_decide_eq_true hjkey⟩

/-- Every join key of one debate is the key of one of its assigned sides,
and carries its round's publication flag. -/
theorem key_shape
    (db : DB) (eid : Nat) (deb : Debate) (rd : Round)
    (hdnd : (db.debates.map (fun d => d.id)).Nodup)
    (hrnd : (db.rounds.map (fun r => r.id)).Nodup)
    (hdeb : deb ∈ db.debates) (hrd : rd ∈ db.rounds) (hrel : deb.round_id = rd.id) :
    ∀ k : TeamKey, k ∈ (speechJoinRows db eid).map keyOf → k.debate_id = deb.id →
      k.scores_published = rd.scores_published ∧
      ∃ dp ∈ db.debate_positions, dp.debate_id = deb.id ∧ dp.position = k.position ∧
        dp.edition_society_id = k.es_id := by
  intro k hk hkd
  obtain ⟨j, hj, hkey⟩ := List.mem_map.1 hk
  obtain ⟨s, hs, hjs⟩ := mem_speechJoinRows hj
  obtain ⟨hjd, hjp, -, ⟨d, hd, hdid, r, hr, hrid, -, -, hrpub⟩, dp, hdp, hdpd, hdpp, hdpe⟩ :=
    mem_joinOfSpeech hjs
  have hjdeb : j.debate_id = deb.id := by rw [← hkey] at hkd; exact hkd
  have hddeb : d = deb := by
    refine List.inj_on_of_nodup_map hdnd hd hdeb ?_
    rw [hdid, ← hjd, hjdeb]
  have hrrd : r = rd := by
    refine List.inj_on_of_nodup_map hrnd hr hrd ?_
    rw [hrid, hddeb, hrel]
  constructor
  · rw [← hkey]
    show j.scores_published = rd.scores_published
    rw [← hrpub, hrrd]
  · refine ⟨dp, hdp, ?_, ?_, ?_⟩
    · rw [hdpd, ← hjd, hjdeb]
    · rw [hdpp, ← hjp, ← hkey]
      rfl
    · rw [hdpe, ← hkey]
      rfl

/-- A team key is determined by its four fields. -/
theorem teamKey_eq (k : TeamKey) (a : Nat) (p : Pos) (e : Nat) (b : Bool)
    (h1 : k.debate_id = a) (h2 : k.position = p) (h3 : k.es_id = e)
    (h4 : k.scores_published = b) : k = ⟨a, p, e, b⟩ := by
  cases k
  subst h1
  subst h2
  subst h3
  subst h4
  rfl

/-- The number of grouped, fully-scored rows of one debate equals the
number of sides that have an assigned society and exactly two scored
speeches. -/
theorem teamRows2_deb_length
    (db : DB) (eid : Nat) (deb : Debate) (rd : Round)
    (hdnd : (db.debates.map (fun d => d.id)).Nodup)
    (hrnd : (db.rounds.map (fun r => r.id)).Nodup)
    (hdpnd : (db.debate_positions.map (fun x => (x.debate_id, x.position))).Nodup)
    (hdeb : deb ∈ db.debates) (hrd : rd ∈ db.rounds) (hrel : deb.round_id = rd.id)
    (hed : rd.edition_id = eid) (hsil : rd.silent = false) :
    ((teamRows2 db eid).filter (fun t => decide (t.debate_id = deb.id))).length
      = (allPos.filter (fun p => decide
          ((∃ x ∈ db.debate_positions, x.debate_id = deb.id ∧ x.position = p) ∧
            scoredCount db deb.id p = 2))).length := by
  classical
  have hmemL : ∀ t : TeamRow,
      t ∈ (teamRows2 db eid).filter (fun t => decide (t.debate_id = deb.id)) ↔
      (t ∈ teamRows db eid ∧ t.speech_count = 2 ∧ t.debate_id = deb.id) := by
    intro t
    rw [teamRows2, List.mem_filter, List.mem_filter, decide_eq_true_eq,
      decide_eq_true_eq, and_assoc]
  have hTnd : (teamRows db eid).Nodup := by
    rw [teamRows, sqlGroup]
    refine List.Nodup.map_on ?_ (List.nodup_dedup _)
    intro k1 _ k2 _ heq
    have e1 : k1.debate_id = k2.debate_id := congrArg TeamRow.debate_id heq
    have e2 : k1.position = k2.position := congrArg TeamRow.position heq
    have e3 : k1.es_id = k2.es_id := congrArg TeamRow.es_id heq
    have e4 : k1.scores_published = k2.scores_published :=
      congrArg TeamRow.scores_published heq
    exact (teamKey_eq k1 _ _ _ _ e1 e2 e3 e4).trans rfl
  have hLnd : ((teamRows2 db eid).filter (fun t => decide (t.debate_id = deb.id))).Nodup := by
    rw [teamRows2]
    exact List.Nodup.filter _ (List.Nodup.filter _ hTnd)
  have hφinj : ∀ t1 ∈ (teamRows2 db eid).filter (fun t => decide (t.debate_id = deb.id)),
      ∀ t2 ∈ (teamRows2 db eid).filter (fun t => decide (t.debate_id = deb.id)),
      t1.position = t2.position → t1 = t2 := by
    intro t1 h1 t2 h2 hpos
    obtain ⟨ht1, hsc1, hd1⟩ := (hmemL t1).1 h1
    obtain ⟨ht2, hsc2, hd2⟩ := (hmemL t2).1 h2
    obtain ⟨k1, hk1, rfl⟩ := (mem_sqlGroup _ _ _ _).1 ht1
    obtain ⟨k2, hk2, rfl⟩ := (mem_sqlGroup _ _ _ _).1 ht2
    have hk1m : k1 ∈ (speechJoinRows db eid).map keyOf := List.mem_dedup.1 hk1
    have hk2m : k2 ∈ (speechJoinRows db eid).map keyOf := List.mem_dedup.1 hk2
    obtain ⟨hpub1, dp1, hdp1, hdp1d, hdp1p, hdp1e⟩ :=
      key_shape db eid deb rd hdnd hrnd hdeb hrd hrel k1 hk1m hd1
    obtain ⟨hpub2, dp2, hdp2, hdp2d, hdp2p, hdp2e⟩ :=
      key_shape db eid deb rd hdnd hrnd hdeb hrd hrel k2 hk2m hd2
    have hpos' : k1.position = k2.position := hpos
    have hdpeq : dp1 = dp2 := by
      refine List.inj_on_of_nodup_map hdpnd hdp1 hdp2 ?_
      rw [Prod.mk.injEq]
      exact ⟨hdp1d.trans hdp2d.symm, (hdp1p.trans hpos').trans hdp2p.symm⟩
    have hkeys : k1 = k2 := by
      refine teamKey_eq k1 k2.debate_id k2.position k2.es_id k2.scores_published
        (hd1.trans hd2.symm) hpos' ?_ (hpub1.trans hpub2.symm)
      rw [← hdp1e, hdpeq, hdp2e]
    rw [hkeys]
  have hmapnd : (((teamRows2 db eid).filter
      (fun t => decide (t.debate_id = deb.id))).map (fun t => t.position)).Nodup :=
    List.Nodup.map_on hφinj hLnd
  have hSLnd : (allPos.filter (fun p => decide
      ((∃ x ∈ db.debate_positions, x.debate_id = deb.id ∧ x.position = p) ∧
        scoredCount db deb.id p = 2))).Nodup :=
    List.Nodup.filter _ (by decide)
  have hext : ∀ p : Pos,
      p ∈ ((teamRows2 db eid).filter
        (fun t => decide (t.debate_id = deb.id))).map (fun t => t.position)
      ↔ p ∈ allPos.filter (fun p => decide
          ((∃ x ∈ db.debate_positions, x.debate_id = deb.id ∧ x.position = p) ∧
            scoredCount db deb.id p = 2)) := by
    intro p
    constructor
    · intro hp
      obtain ⟨t, htL, hφ⟩ := List.mem_map.1 hp
      obtain ⟨ht, hsc, hd⟩ := (hmemL t).1 htL
      obtain ⟨k, hk, rfl⟩ := (mem_sqlGroup _ _ _ _).1 ht
      have hkm : k ∈ (speechJoinRows db eid).map keyOf := List.mem_dedup.1 hk
      obtain ⟨hpub, dp, hdp, hdpd, hdpp, hdpe⟩ :=
        key_shape db eid deb rd hdnd hrnd hdeb hrd hrel k hkm hd
    -- the side in question is the one assigned by dp
      have hφ' : k.position = p := hφ
      have hdpp' : dp.position = p := hdpp.trans hφ'
      have hkey : k = ⟨deb.id, dp.position, dp.edition_society_id, rd.scores_published⟩ :=
        teamKey_eq k _ _ _ _ hd hdpp.symm hdpe.symm hpub
      have hsc' : ((speechJoinRows db eid).filter
          (fun r => decide (keyOf r = k))).length = 2 := hsc
      have hlen : scoredCount db deb.id dp.position = 2 := by
        rw [← group_length_scored db eid deb rd dp hdnd hrnd hdpnd hdeb hrd hrel hed hsil
          hdp hdpd, ← hkey]
        exact hsc'
      rw [List.mem_filter]
      refine ⟨by cases p <;> decide, decide_eq_true ⟨⟨dp, hdp, hdpd, hdpp'⟩, ?_⟩⟩
      rw [← hdpp']
      exact hlen
    · intro hp
      rw [List.mem_filter] at hp
      obtain ⟨hpall, hpred⟩ := hp
      obtain ⟨⟨dp, hdp, hdpd, hdpp⟩, hcnt⟩ := of_decide_eq_true hpred
      have hcnt' : scoredCount db deb.id dp.position = 2 := by rw [hdpp]; exact hcnt
      have hkm := (key_mem_iff_scored db eid deb rd dp hdnd hrnd hdpnd hdeb hrd hrel
        hed hsil hdp hdpd).2 (by rw [hcnt']; omega)
      have hk : (⟨deb.id, dp.position, dp.edition_society_id, rd.scores_published⟩ : TeamKey)
          ∈ ((speechJoinRows db eid).map keyOf).dedup := List.mem_dedup.2 hkm
      have hglen : ((speechJoinRows db eid).filter (fun r => decide (keyOf r =
          (⟨deb.id, dp.position, dp.edition_society_id, rd.scores_published⟩ : TeamKey)))).length
          = 2 := by
        rw [group_length_scored db eid deb rd dp hdnd hrnd hdpnd hdeb hrd hrel hed hsil
          hdp hdpd]
        exact hcnt'
      refine List.mem_map.2 ⟨_, (hmemL _).2 ⟨(mem_sqlGroup _ _ _ _).2 ⟨_, hk, rfl⟩,
        hglen, rfl⟩, hdpp⟩
  have hperm := (List.perm_ext_iff_of_nodup hmapnd hSLnd).2 hext
  calc ((teamRows2 db eid).filter (fun t => decide (t.debate_id = deb.id))).length
      = (((teamRows2 db eid).filter
          (fun t => decide (t.debate_id = deb.id))).map (fun t => t.position)).length :=
        (List.length_map _ _).symm
    _ = _ := hperm.length_eq

/-- Membership in `complete_debates_sq` coincides with the completeness
test the specification words: all four sides assigned and each with
exactly two scored speeches. -/
theorem complete_iff
    (db : DB) (eid : Nat) (deb : Debate) (rd : Round)
    (hdnd : (db.debates.map (fun d => d.id)).Nodup)
    (hrnd : (db.rounds.map (fun r => r.id)).Nodup)
    (hdpnd : (db.debate_positions.map (fun x => (x.debate_id, x.position))).Nodup)
    (hdeb : deb ∈ db.debates) (hrd : rd ∈ db.rounds) (hrel : deb.round_id = rd.id)
    (hed : rd.edition_id = eid) (hsil : rd.silent = false) :
    deb.id ∈ completeDebateIds db eid ↔ debateComplete db deb := by
  have hlen := teamRows2_deb_length db eid deb rd hdnd hrnd hdpnd hdeb hrd hrel hed hsil
  rw [completeDebateIds, List.mem_filter]
  constructor
  · rintro ⟨-, hcount⟩
    replace hcount := of_decide_eq_true hcount
    rw [hlen] at hcount
    have hSL : allPos.filter (fun p => decide
        ((∃ x ∈ db.debate_positions, x.debate_id = deb.id ∧ x.position = p) ∧
          scoredCount db deb.id p = 2)) = allPos := by
      refine List.Sublist.eq_of_length (List.filter_sublist _) ?_
      rw [hcount]
      rfl
    intro p hp
    exact of_decide_eq_true (List.filter_eq_self.1 hSL p hp)
  · intro hc
    have hall : allPos.filter (fun p => decide
        ((∃ x ∈ db.debate_positions, x.debate_id = deb.id ∧ x.position = p) ∧
          scoredCount db deb.id p = 2)) = allPos :=
      List.filter_eq_self.2 (fun p hp => decide_eq_true (hc p hp))
    have hcount : ((teamRows2 db eid).filter
        (fun t => decide (t.debate_id = deb.id))).length = 4 := by
      rw [hlen, hall]
      rfl
    refine ⟨?_, decide_eq_true hcount⟩
    rcases hne : (teamRows2 db eid).filter (fun t => decide (t.debate_id = deb.id))
      with _ | ⟨t, rest⟩
    · rw [hne] at hcount
      simp at hcount
    · have ht : t ∈ (teamRows2 db eid).filter (fun t => decide (t.debate_id = deb.id)) := by
        rw [hne]
        exact List.mem_cons_self _ _
      obtain ⟨htr, htd⟩ := List.mem_filter.1 ht
      rw [List.mem_dedup]
      exact List.mem_map.2 ⟨t, htr, of_decide_eq_true htd⟩

/-- C2.  Under the schema's uniqueness invariants, a debate of a
non-silent round of the edition feeds the standings rows (`ranked_sq`) if
and only if all four of its sides have an assigned society and each side
has exactly two speeches with non-null scores; a debate failing the test
contributes no row at all (it is skipped, the whole computation stays
total). -/
theorem C2_completeness_filter
    (db : DB) (eid : Nat) (deb : Debate) (rd : Round)
    (hdnd : (db.debates.map (fun d => d.id)).Nodup)
    (hrnd : (db.rounds.map (fun r => r.id)).Nodup)
    (hdpnd : (db.debate_positions.map (fun x => (x.debate_id, x.position))).Nodup)
    (hdeb : deb ∈ db.debates) (hrd : rd ∈ db.rounds) (hrel : deb.round_id = rd.id)
    (hed : rd.edition_id = eid) (hsil : rd.silent = false) :
    (deb.id ∈ completeDebateIds db eid ↔ debateComplete db deb)
    ∧ (¬ debateComplete db deb → ∀ t ∈ rankedRows db eid, t.debate_id ≠ deb.id)
    ∧ (debateComplete db deb → ∃ t ∈ rankedRows db eid, t.debate_id = deb.id) := by
  have hiff := complete_iff db eid deb rd hdnd hrnd hdpnd hdeb hrd hrel hed hsil
  refine ⟨hiff, ?_, ?_⟩
  · intro hnc t ht htd
    obtain ⟨t0, ht0, rfl⟩ := List.mem_map.1 ht
    obtain ⟨-, hcond⟩ := List.mem_filter.1 ht0
    obtain ⟨-, hmem⟩ := of_decide_eq_true hcond
    exact hnc (hiff.1 (htd ▸ hmem))
  · intro hc
    have hdm : deb.id ∈ completeDebateIds db eid := hiff.2 hc
    have hcount : ((teamRows2 db eid).filter
        (fun t => decide (t.debate_id = deb.id))).length = 4 := by
      have := (List.mem_filter.1 (by rw [completeDebateIds] at hdm; exact hdm)).2
      exact of_decide_eq_true this
    rcases hne : (teamRows2 db eid).filter (fun t => decide (t.debate_id = deb.id))
      with _ | ⟨t, rest⟩
    · rw [hne] at hcount
      simp at hcount
    · have ht : t ∈ (teamRows2 db eid).filter (fun t => decide (t.debate_id = deb.id)) := by
        rw [hne]
        exact List.mem_cons_self _ _
      obtain ⟨htr, htd⟩ := List.mem_filter.1 ht
      obtain ⟨htteam, htsc⟩ := List.mem_filter.1 htr
      have htd' : t.debate_id = deb.id := of_decide_eq_true htd
      have htbase : t ∈ rankedBase db eid := by
        rw [rankedBase]
        refine List.mem_filter.2 ⟨htteam, decide_eq_true ⟨of_decide_eq_true htsc, ?_⟩⟩
        rw [htd']
        exact hdm
      refine ⟨_, List.mem_map.2 ⟨t, htbase, rfl⟩, htd'⟩

/-- Every grouped row of a debate carries the publication flag of the
debate's round. -/
theorem teamRows_scores_published
    (db : DB) (eid : Nat) (deb : Debate) (rd : Round)
    (hdnd : (db.debates.map (fun d => d.id)).Nodup)
    (hrnd : (db.rounds.map (fun r => r.id)).Nodup)
    (hdeb : deb ∈ db.debates) (hrd : rd ∈ db.rounds) (hrel : deb.round_id = rd.id) :
    ∀ t ∈ teamRows db eid, t.debate_id = deb.id →
      t.scores_published = rd.scores_published := by
  intro t ht htd
  obtain ⟨k, hk, rfl⟩ := (mem_sqlGroup _ _ _ _).1 ht
  exact (key_shape db eid deb rd hdnd hrnd hdeb hrd hrel k (List.mem_dedup.1 hk) htd).1

/-- Every ranked row of a debate carries the publication flag of the
debate's round. -/
theorem rankedRows_scores_published
    (db : DB) (eid : Nat) (deb : Debate) (rd : Round)
    (hdnd : (db.debates.map (fun d => d.id)).Nodup)
    (hrnd : (db.rounds.map (fun r => r.id)).Nodup)
    (hdeb : deb ∈ db.debates) (hrd : rd ∈ db.rounds) (hrel : deb.round_id = rd.id) :
    ∀ t ∈ rankedRows db eid, t.debate_id = deb.id →
      t.scores_published = rd.scores_published := by
  intro t ht htd
  obtain ⟨t0, ht0, rfl⟩ := List.mem_map.1 ht
  rw [rankedBase] at ht0
  obtain ⟨ht0team, -⟩ := List.mem_filter.1 ht0
  exact teamRows_scores_published db eid deb rd hdnd hrnd hdeb hrd hrel t0 ht0team htd

/-- C1.  In the standings accumulation, a debate of a round whose scores
are not published contributes nothing to a registration's speaker points,
while its rows still enter the points, firsts, seconds and debate-count
sums exactly like every other row. -/
theorem C1_publication_gating
    (db : DB) (eid : Nat) (rd : Round) (deb : Debate)
    (hdnd : (db.debates.map (fun d => d.id)).Nodup)
    (hrnd : (db.rounds.map (fun r => r.id)).Nodup)
    (hdeb : deb ∈ db.debates) (hrd : rd ∈ db.rounds) (hrel : deb.round_id = rd.id)
    (hpub : rd.scores_published = false)
    (a : AggRow) (ha : a ∈ standingsAgg db eid) :
    a.speaker_points = (((rankedRows db eid).filter
        (fun t => decide (t.es_id = a.es_id ∧ t.debate_id ≠ deb.id))).map spOfRow).sum
    ∧ a.points = (((rankedRows db eid).filter
        (fun t => decide (t.es_id = a.es_id))).map (fun t => pointsOfRank t.rnk)).sum
    ∧ a.firsts = (((rankedRows db eid).filter
        (fun t => decide (t.es_id = a.es_id))).map (fun t => firstsOfRank t.rnk)).sum
    ∧ a.seconds = (((rankedRows db eid).filter
        (fun t => decide (t.es_id = a.es_id))).map (fun t => secondsOfRank t.rnk)).sum
    ∧ a.debates = ((rankedRows db eid).filter
        (fun t => decide (t.es_id = a.es_id))).length := by
  obtain ⟨e, he, rfl⟩ := (mem_sqlGroup _ _ _ _).1 ha
  refine ⟨?_, rfl, rfl, rfl, rfl⟩
  show ((((rankedRows db eid).filter (fun r => decide (r.es_id = e))).map spOfRow).sum = _)
  rw [sum_filter_split (fun t => decide (t.debate_id ≠ deb.id)) spOfRow]
  have hzero : ((((rankedRows db eid).filter (fun r => decide (r.es_id = e))).filter
      (fun t => ! decide (t.debate_id ≠ deb.id))).map spOfRow).sum = 0 := by
    refine List.sum_eq_zero (fun x hx => ?_)
    obtain ⟨t, htm, rfl⟩ := List.mem_map.1 hx
    obtain ⟨htg, htb⟩ := List.mem_filter.1 htm
    obtain ⟨htr, -⟩ := List.mem_filter.1 htg
    have htd : t.debate_id = deb.id := by
      rw [Bool.not_eq_true'] at htb
      exact not_not.1 (of_decide_eq_false htb)
    have hps := rankedRows_scores_published db eid deb rd hdnd hrnd hdeb hrd hrel
      t htr htd
    rw [spOfRow, hps, hpub]
    simp
  rw [hzero, add_zero, List.filter_filter]
  have hfeq : (rankedRows db eid).filter
      (fun t => decide (t.debate_id ≠ deb.id) && decide (t.es_id = e))
      = (rankedRows db eid).filter
        (fun t => decide (t.es_id = e ∧ t.debate_id ≠ deb.id)) := by
    refine List.filter_congr (fun t _ => ?_)
    by_cases h1 : t.es_id = e <;> by_cases h2 : t.debate_id = deb.id <;> simp [h1, h2]
  rw [hfeq]

/-- Witness for C1: in the concrete snapshot, Alpha's accumulated speaker
points are 142 — only its published-round total, the unpublished round 2
debate contributing nothing. -/
theorem C1_publication_gating_witness :
    (142 : Int) = (((rankedRows exDB 1).filter
        (fun t => decide (t.es_id = 1 ∧ t.debate_id ≠ 2))).map spOfRow).sum := by
  have h := C1_publication_gating exDB 1 ⟨2, 1, 2, false, false⟩ ⟨2, 2, 1⟩
    (by decide) (by decide) (by decide) (by decide) (by decide) (by decide)
    ⟨1, 5, 142, 1, 1, 2⟩ (by decide)
  exact h.1

/-- Witness for C2: the published-round debate of the concrete snapshot is
complete and produces a standings row. -/
theorem C2_completeness_filter_witness :
    debateComplete exDB ⟨1, 1, 1⟩ ∧ ∃ t ∈ rankedRows exDB 1, t.debate_id = 1 := by
  have h := C2_completeness_filter exDB 1 ⟨1, 1, 1⟩ ⟨1, 1, 1, false, true⟩
    (by decide) (by decide) (by decide) (by decide) (by decide) (by decide)
    (by decide) (by decide)
  have hc : debateComplete exDB ⟨1, 1, 1⟩ := by decide
  exact ⟨hc, h.2.2 hc⟩

/-- The maximum-year scan started from a candidate yields a member (or the
candidate) whose year dominates the candidate and every scanned edition. -/
theorem gce_foldl_some :
    ∀ (l : List Edition) (b : Edition), ∃ e, l.foldl gceStep (some b) = some e ∧
      (e = b ∨ e ∈ l) ∧ b.year ≤ e.year ∧ ∀ x ∈ l, x.year ≤ e.year := by
  intro l
  induction l with
  | nil =>
    intro b
    exact ⟨b, rfl, Or.inl rfl, le_refl _, fun x hx => absurd hx (List.not_mem_nil x)⟩
  | cons x xs ih =>
    intro b
    rw [List.foldl_cons]
    by_cases hbx : b.year < x.year
    · have hstep : gceStep (some b) x = some x := by simp [gceStep, hbx]
      rw [hstep]
      obtain ⟨e, he, hmem, hyear, hall⟩ := ih x
      refine ⟨e, he, Or.inr ?_, le_trans hbx.le hyear, ?_⟩
      · rcases hmem with rfl | h
        · exact List.mem_cons_self _ _
        · exact List.mem_cons_of_mem _ h
      · intro z hz
        rcases List.mem_cons.1 hz with rfl | h
        · exact hyear
        · exact hall z h
    · have hstep : gceStep (some b) x = some b := by simp [gceStep, hbx]
      rw [hstep]
      obtain ⟨e, he, hmem, hyear, hall⟩ := ih b
      refine ⟨e, he, ?_, hyear, ?_⟩
      · rcases hmem with rfl | h
        · exact Or.inl rfl
        · exact Or.inr (List.mem_cons_of_mem _ h)
      · intro z hz
        rcases List.mem_cons.1 hz with rfl | h
        · exact le_trans (not_lt.1 hbx) hyear
        · exact hall z h

/-- C10.  The "current" edition parameter resolves through
`get_current_edition` to an edition of maximal year; when no edition
exists the resolution is empty and the standings payload is the empty
list. -/
theorem C10_current_edition (db : DB) :
    resolveEdition db EditionParam.current = get_current_edition db
    ∧ (db.editions = [] →
        get_current_edition db = none ∧ api_standings db EditionParam.current = [])
    ∧ (∀ e, get_current_edition db = some e →
        e ∈ db.editions ∧ ∀ x ∈ db.editions, x.year ≤ e.year)
    ∧ (db.editions ≠ [] → ∃ e, get_current_edition db = some e) := by
  refine ⟨rfl, ?_, ?_, ?_⟩
  · intro h
    have h1 : get_current_edition db = none := by rw [get_current_edition, h]; rfl
    refine ⟨h1, ?_⟩
    simp [api_standings, resolveEdition, h1]
  · intro e he
    rcases hl : db.editions with _ | ⟨x, xs⟩
    · rw [get_current_edition, hl] at he
      simp at he
    · rw [get_current_edition, hl, List.foldl_cons] at he
      have hstep : gceStep none x = some x := rfl
      rw [hstep] at he
      obtain ⟨e', he', hmem, hyear, hall⟩ := gce_foldl_some xs x
      rw [he'] at he
      have hee : e' = e := by injection he
      subst hee
      constructor
      · rcases hmem with rfl | h
        · exact List.mem_cons_self _ _
        · exact List.mem_cons_of_mem _ h
      · intro z hz
        rcases List.mem_cons.1 hz with rfl | h
        · exact hyear
        · exact hall z h
  · intro hne
    rcases hl : db.editions with _ | ⟨x, xs⟩
    · exact absurd hl hne
    · rw [get_current_edition, hl, List.foldl_cons]
      obtain ⟨e', he', -, -, -⟩ := gce_foldl_some xs x
      exact ⟨e', by rw [show gceStep none x = some x from rfl]; exact he'⟩

/-- Witness for C10: in the concrete snapshot the current edition is the
2025 one; on the empty snapshot the standings payload is empty. -/
theorem C10_current_edition_witness :
    ((⟨1, 2025⟩ : Edition) ∈ exDB.editions ∧ ∀ x ∈ exDB.editions, x.year ≤ (2025 : Int))
    ∧ api_standings exDBempty EditionParam.current = [] :=
  ⟨(C10_current_edition exDB).2.2.1 ⟨1, 2025⟩ (by decide),
   ((C10_current_edition exDBempty).2.1 rfl).2⟩

/-- Counterexample to C4 as stated: an unresolvable edition year yields the
plain empty payload, not an `EditionNotFound` failure (the computation has
no failure outcome at all), while an existing edition with no qualifying
debates yields a non-empty payload of zero rows rather than an empty list. -/
theorem C4_unknown_edition_counterexample :
    api_standings exDBbare (EditionParam.year 1999) = []
    ∧ (∀ e ∈ exDBbare.editions, e.year ≠ 1999)
    ∧ api_standings exDBbare (EditionParam.year 2025) ≠ []
    ∧ completeDebateIds exDBbare 1 = [] := by decide

/-- C4 as amended: when the edition identifier does not resolve the
computation returns the empty list (no error is raised); when it resolves,
the payload is empty exactly when the edition has no eligible
registrations, regardless of qualifying debates. -/
theorem C4_unknown_edition_amended (db : DB) (p : EditionParam) (ed : Edition) :
    (resolveEdition db p = none → api_standings db p = [])
    ∧ (resolveEdition db p = some ed →
        (api_standings db p = [] ↔ baseRows db ed.id = [])) := by
  constructor
  · intro h
    simp [api_standings, h]
  · intro h
    simp only [api_standings, h]
    constructor
    · intro hout
      have h1 : sortedFinalRows db ed.id = [] :=
        List.map_eq_nil.1 hout
      have hperm : (sortedFinalRows db ed.id).Perm (finalRows db ed.id) :=
        List.perm_insertionSort _ _
      rw [h1] at hperm
      have h2 : finalRows db ed.id = [] := hperm.symm.eq_nil
      rw [finalRows] at h2
      exact List.map_eq_nil.1 h2
    · intro hbase
      rw [standingsForEdition, sortedFinalRows, finalRows, hbase]
      rfl

/-- Witness for the amended C4 on the concrete one-society snapshot. -/
theorem C4_unknown_edition_amended_witness :
    api_standings exDBbare (EditionParam.year 1999) = []
    ∧ (api_standings exDBbare (EditionParam.year 2025) = [] ↔ baseRows exDBbare 1 = []) :=
  ⟨(C4_unknown_edition_amended exDBbare (EditionParam.year 1999) ⟨1, 2025⟩).1 (by decide),
   (C4_unknown_edition_amended exDBbare (EditionParam.year 2025) ⟨1, 2025⟩).2 (by decide)⟩

/-- Every final row records the registration id of the base row it extends. -/
theorem mem_finalRows_edsoc (db : DB) (eid : Nat) :
    ∀ f ∈ finalRows db eid, ∃ b ∈ baseRows db eid,
      f.edsoc_id = b.es_id ∧ f.society_id = b.society_id ∧ f.short_name = b.short_name := by
  intro f hf
  rw [finalRows] at hf
  obtain ⟨b, hb, rfl⟩ := List.mem_map.1 hf
  refine ⟨b, hb, ?_⟩
  rcases hfind : (standingsAgg db eid).find? (fun a => decide (a.es_id = b.es_id))
    with _ | a <;> simp [hfind]

/-- C6.  The standings payload has one row per eligible registration of
the resolved edition, however many debates are scored, and a registration
with no contributing rows appears with all counters zero. -/
theorem C6_row_count (db : DB) (p : EditionParam) (ed : Edition)
    (hres : resolveEdition db p = some ed)
    (b : BaseRow) (hb : b ∈ baseRows db ed.id)
    (hz : ∀ t ∈ rankedRows db ed.id, t.es_id ≠ b.es_id) :
    (api_standings db p).length = (baseRows db ed.id).length
    ∧ ∃ row ∈ api_standings db p, row.edsoc_id = b.es_id ∧ row.points = 0 ∧
        row.speaker_points = 0 ∧ row.firsts = 0 ∧ row.seconds = 0 ∧ row.debates = 0 := by
  have hlen : (api_standings db p).length = (baseRows db ed.id).length := by
    simp only [api_standings, hres, standingsForEdition, sortedFinalRows]
    rw [List.length_map, List.length_insertionSort, finalRows, List.length_map]
  refine ⟨hlen, ?_⟩
  have hfind : (standingsAgg db ed.id).find? (fun a => decide (a.es_id = b.es_id))
      = none := by
    rcases hf : (standingsAgg db ed.id).find? (fun a => decide (a.es_id = b.es_id))
      with _ | a
    · exact hf
    · exfalso
      have hmem := List.mem_of_find?_eq_some hf
      have hpred : a.es_id = b.es_id := of_decide_eq_true
        (@List.find?_some AggRow (fun x => decide (x.es_id = b.es_id)) a
          (standingsAgg db ed.id) hf)
      obtain ⟨e, he, rfl⟩ := (mem_sqlGroup _ _ _ _).1 hmem
      have he' : e ∈ (rankedRows db ed.id).map (fun t => t.es_id) := List.mem_dedup.1 he
      obtain ⟨t, ht, hte⟩ := List.mem_map.1 he'
      exact hz t ht (hte.trans hpred)
  have hrow : (⟨b.es_id, b.society_id, b.short_name, 0, 0, 0, 0, 0⟩ : FinalRow)
      ∈ finalRows db ed.id := by
    rw [finalRows]
    refine List.mem_map.2 ⟨b, hb, ?_⟩
    rw [hfind]
  have hsorted : (⟨b.es_id, b.society_id, b.short_name, 0, 0, 0, 0, 0⟩ : FinalRow)
      ∈ sortedFinalRows db ed.id := by
    rw [sortedFinalRows]
    exact ((List.perm_insertionSort _ _).mem_iff).2 hrow
  refine ⟨toStandingRow ⟨b.es_id, b.society_id, b.short_name, 0, 0, 0, 0, 0⟩, ?_,
    rfl, rfl, rfl, rfl, rfl, rfl⟩
  simp only [api_standings, hres, standingsForEdition]
  exact List.mem_map.2 ⟨_, hsorted, rfl⟩

/-- Witness for C6 on the one-society, zero-debate snapshot: one output
row, all counters zero. -/
theorem C6_row_count_witness :
    (api_standings exDBbare (EditionParam.year 2025)).length = (baseRows exDBbare 1).length
    ∧ ∃ row ∈ api_standings exDBbare (EditionParam.year 2025), row.edsoc_id = 1 ∧
        row.points = 0 ∧ row.speaker_points = 0 ∧ row.firsts = 0 ∧ row.seconds = 0 ∧
        row.debates = 0 :=
  C6_row_count exDBbare (EditionParam.year 2025) ⟨1, 2025⟩ (by decide)
    ⟨1, 1, some "Alpha"⟩ (by decide) (by decide)

/-- Membership in `base_q`: a base row is an edition registration joined
to its society, kept when the trimmed short name differs from
"Independente". -/
theorem mem_baseRows (db : DB) (eid : Nat) (b : BaseRow) :
    b ∈ baseRows db eid ↔ ∃ es ∈ db.edition_societies, es.edition_id = eid ∧
      ∃ soc ∈ db.societies, soc.id = es.society_id ∧
        sqlTrim (soc.short_name.getD "") ≠ "Independente" ∧
        b = ⟨es.id, soc.id, soc.short_name⟩ := by
  rw [baseRows]
  simp only [List.mem_flatMap, List.mem_ite_nil_right, List.mem_singleton]

/-- The standings payload rows for a resolved edition are exactly the
JSON images of the final rows. -/
theorem mem_api_standings (db : DB) (p : EditionParam) (ed : Edition)
    (hres : resolveEdition db p = some ed) (row : StandingRow) :
    row ∈ api_standings db p ↔ ∃ f ∈ finalRows db ed.id, row = toStandingRow f := by
  simp only [api_standings, hres, standingsForEdition, sortedFinalRows]
  rw [List.mem_map]
  constructor
  · rintro ⟨f, hf, rfl⟩
    exact ⟨f, ((List.perm_insertionSort _ _).mem_iff).1 hf, rfl⟩
  · rintro ⟨f, hf, rfl⟩
    exact ⟨f, ((List.perm_insertionSort _ _).mem_iff).2 hf, rfl⟩

/-- C8.  A registration of the resolved edition appears in the standings
payload exactly when its society's short name, trimmed of surrounding
whitespace with null read as empty, differs from "Independente". -/
theorem C8_independente_exclusion (db : DB) (p : EditionParam) (ed : Edition)
    (hres : resolveEdition db p = some ed)
    (es : EditionSociety) (soc : Society)
    (hes : es ∈ db.edition_societies) (hesed : es.edition_id = ed.id)
    (hsoc : soc ∈ db.societies) (hsid : soc.id = es.society_id)
    (hsocnd : (db.societies.map (fun s => s.id)).Nodup)
    (hesnd : (db.edition_societies.map (fun x => x.id)).Nodup) :
    (∃ row ∈ api_standings db p, row.edsoc_id = es.id)
      ↔ sqlTrim (soc.short_name.getD "") ≠ "Independente" := by
  constructor
  · rintro ⟨row, hrow, hid⟩
    obtain ⟨f, hf, rfl⟩ := (mem_api_standings db p ed hres row).1 hrow
    obtain ⟨b, hb, hbe, -, -⟩ := mem_finalRows_edsoc db ed.id f hf
    obtain ⟨es', hes', hed', soc', hsoc', hsid', hname', rfl⟩ :=
      (mem_baseRows db ed.id b).1 hb
    have hbid : es'.id = es.id := by
      have : (toStandingRow f).edsoc_id = f.edsoc_id := rfl
      rw [this, hbe] at hid
      exact hid
    have hES : es' = es := List.inj_on_of_nodup_map hesnd hes' hes hbid
    have hsocid : soc'.id = soc.id := by rw [hsid', hES, ← hsid]
    have hSOC : soc' = soc := List.inj_on_of_nodup_map hsocnd hsoc' hsoc hsocid
    rw [← hSOC]
    exact hname'
  · intro hname
    have hb : (⟨es.id, soc.id, soc.short_name⟩ : BaseRow) ∈ baseRows db ed.id :=
      (mem_baseRows db ed.id _).2 ⟨es, hes, hesed, soc, hsoc, hsid, hname, rfl⟩
    have hf : ((finalRows db ed.id).find? (fun _ => true)) = _ := rfl
    have hfin : ∀ g : BaseRow → FinalRow,
        g = (fun b => match (standingsAgg db ed.id).find?
            (fun a => decide (a.es_id = b.es_id)) with
          | some a => ⟨b.es_id, b.society_id, b.short_name,
              a.points, a.speaker_points, a.firsts, a.seconds, a.debates⟩
          | none => ⟨b.es_id, b.society_id, b.short_name, 0, 0, 0, 0, 0⟩) →
        g ⟨es.id, soc.id, soc.short_name⟩ ∈ finalRows db ed.id := by
      intro g hg
      rw [finalRows]
      exact List.mem_map.2 ⟨_, hb, by rw [hg]⟩
    have hmem := hfin _ rfl
    refine ⟨toStandingRow _, (mem_api_standings db p ed hres _).2 ⟨_, hmem, rfl⟩, ?_⟩
    rcases hfind : (standingsAgg db ed.id).find?
        (fun a => decide (a.es_id = (⟨es.id, soc.id, soc.short_name⟩ : BaseRow).es_id))
      with _ | a <;> simp [hfind, toStandingRow]

/-- Witness for C8: the Alpha registration appears in the payload; the
"Independente" registration does not. -/
theorem C8_independente_exclusion_witness :
    ((∃ row ∈ api_standings exDB (EditionParam.year 2025), row.edsoc_id = 1)
      ↔ sqlTrim ((some "Alpha").getD "") ≠ "Independente")
    ∧ ¬ (∃ row ∈ api_standings exDB (EditionParam.year 2025), row.edsoc_id = 5) := by
  constructor
  · exact C8_independente_exclusion exDB (EditionParam.year 2025) ⟨1, 2025⟩ (by decide)
      ⟨1, 1, 1⟩ ⟨1, "Alpha", some "Alpha"⟩ (by decide) (by decide) (by decide)
      (by decide) (by decide) (by decide)
  · rintro ⟨row, hrow, hid⟩
    have h := (C8_independente_exclusion exDB (EditionParam.year 2025) ⟨1, 2025⟩
      (by decide) ⟨5, 1, 5⟩ ⟨5, "Indep", some "Independente"⟩ (by decide) (by decide)
      (by decide) (by decide) (by decide) (by decide)).1 ⟨row, hrow, hid⟩
    exact h (by decide)

/-- Code-point comparison of character lists is total. -/
theorem charListLe_total : ∀ a b : List Char, (charListLe a b || charListLe b a) = true := by
  intro a
  induction a with
  | nil => intro b; rfl
  | cons x xs ih =>
    intro b
    cases b with
    | nil => rfl
    | cons y ys =>
      by_cases hxy : x = y
      · subst hxy
        simpa [charListLe] using ih ys
      · rcases lt_or_gt_of_ne hxy with h | h
        · simp [charListLe, hxy, h]
        · simp [charListLe, hxy, Ne.symm hxy, not_lt.2 h.le, h]

/-- Code-point comparison of character lists is transitive. -/
theorem charListLe_trans : ∀ a b c : List Char,
    charListLe a b = true → charListLe b c = true → charListLe a c = true := by
  intro a
  induction a with
  | nil => intro b c _ _; rfl
  | cons x xs ih =>
    intro b c hab hbc
    cases b with
    | nil => simp [charListLe] at hab
    | cons y ys =>
      cases c with
      | nil => simp [charListLe] at hbc
      | cons z zs =>
        by_cases hxy : x = y
        · subst hxy
          by_cases hyz : x = z
          · subst hyz
            simp only [charListLe, if_pos rfl] at hab hbc ⊢
            exact ih ys zs hab hbc
          · simp only [charListLe, if_pos rfl] at hab
            simpa [charListLe, hyz] using hbc
        · by_cases hyz : y = z
          · subst hyz
            simpa [charListLe, hxy] using hab
          · have hx : x < y := by simpa [charListLe, hxy] using hab
            have hy : y < z := by simpa [charListLe, hyz] using hbc
            have hxz : x < z := lt_trans hx hy
            simp [charListLe, ne_of_lt hxz, hxz]

/-- Code-point comparison of character lists is antisymmetric. -/
theorem charListLe_antisymm : ∀ a b : List Char,
    charListLe a b = true → charListLe b a = true → a = b := by
  intro a
  induction a with
  | nil =>
    intro b _ hba
    cases b with
    | nil => rfl
    | cons y ys => simp [charListLe] at hba
  | cons x xs ih =>
    intro b hab hba
    cases b with
    | nil => simp [charListLe] at hab
    | cons y ys =>
      by_cases hxy : x = y
      · subst hxy
        simp only [charListLe, if_pos rfl] at hab hba
        rw [ih ys hab hba]
      · have h1 : x < y := by simpa [charListLe, hxy] using hab
        have h2 : y < x := by simpa [charListLe, Ne.symm hxy] using hba
        exact absurd h1 (not_lt.2 h2.le)

/-- Nullable-name comparison is total. -/
theorem nameLeB_total : ∀ x y : Option String, (nameLeB x y || nameLeB y x) = true := by
  intro x y
  cases x with
  | none =>
    cases y with
    | none => rfl
    | some b => rfl
  | some a =>
    cases y with
    | none => rfl
    | some b => exact charListLe_total a.data b.data

/-- Nullable-name comparison is transitive. -/
theorem nameLeB_trans : ∀ x y z : Option String,
    nameLeB x y = true → nameLeB y z = true → nameLeB x z = true := by
  intro x y z hxy hyz
  cases z with
  | none => cases x <;> rfl
  | some c =>
    cases y with
    | none => simp [nameLeB] at hyz
    | some b =>
      cases x with
      | none => simp [nameLeB] at hxy
      | some a => exact charListLe_trans a.data b.data c.data hxy hyz

/-- Nullable-name comparison is antisymmetric. -/
theorem nameLeB_antisymm : ∀ x y : Option String,
    nameLeB x y = true → nameLeB y x = true → x = y := by
  intro x y hxy hyx
  cases x with
  | none =>
    cases y with
    | none => rfl
    | some b => simp [nameLeB] at hxy
  | some a =>
    cases y with
    | none => simp [nameLeB] at hyx
    | some b =>
      have : a.data = b.data := charListLe_antisymm a.data b.data hxy hyx
      exact congrArg (fun l => some (String.mk l)) this

/-- One descending ORDER BY level is transitive given the deeper levels are. -/
theorem lexLe_trans (x y z : Int) (r1 r2 r3 : Bool)
    (hr : r1 = true → r2 = true → r3 = true) :
    lexLe x y r1 = true → lexLe y z r2 = true → lexLe x z r3 = true := by
  unfold lexLe
  by_cases h1 : x = y <;> by_cases h2 : y = z <;> by_cases h3 : x = z <;>
    simp only [h1, h2, h3, if_pos, if_neg, decide_eq_true_eq] <;> simp_all <;> omega

/-- One descending ORDER BY level is total given the deeper levels are. -/
theorem lexLe_total (x y : Int) (r1 r2 : Bool) (hr : (r1 || r2) = true) :
    (lexLe x y r1 || lexLe y x r2) = true := by
  unfold lexLe
  by_cases h1 : x = y <;> by_cases h2 : y = x <;> simp_all <;> omega

/-- Mutually related rows at one ORDER BY level have equal keys and
mutually related deeper levels. -/
theorem lexLe_antisymm (x y : Int) (r1 r2 : Bool) :
    lexLe x y r1 = true → lexLe y x r2 = true → x = y ∧ r1 = true ∧ r2 = true := by
  unfold lexLe
  by_cases h1 : x = y <;> by_cases h2 : y = x <;> simp_all <;> omega

/-- The final ORDER BY comparator is total. -/
theorem rowLeB_total (a b : FinalRow) : (rowLeB a b || rowLeB b a) = true := by
  unfold rowLeB
  refine lexLe_total _ _ _ _ (lexLe_total _ _ _ _ (lexLe_total _ _ _ _
    (lexLe_total _ _ _ _ (nameLeB_total _ _))))

/-- The final ORDER BY comparator is transitive. -/
theorem rowLeB_trans (a b c : FinalRow) :
    rowLeB a b = true → rowLeB b c = true → rowLeB a c = true := by
  unfold rowLeB
  refine lexLe_trans _ _ _ _ _ _ (lexLe_trans _ _ _ _ _ _ (lexLe_trans _ _ _ _ _ _
    (lexLe_trans _ _ _ _ _ _ (fun h1 h2 => nameLeB_trans _ _ _ h1 h2))))

/-- Mutually related rows under the ORDER BY comparator share their
nullable short name. -/
theorem rowLeB_name_eq (a b : FinalRow) :
    rowLeB a b = true → rowLeB b a = true → a.short_name = b.short_name := by
  unfold rowLeB
  intro hab hba
  obtain ⟨-, hab1, hba1⟩ := lexLe_antisymm _ _ _ _ hab hba
  obtain ⟨-, hab2, hba2⟩ := lexLe_antisymm _ _ _ _ hab1 hba1
  obtain ⟨-, hab3, hba3⟩ := lexLe_antisymm _ _ _ _ hab2 hba2
  obtain ⟨-, hab4, hba4⟩ := lexLe_antisymm _ _ _ _ hab3 hba3
  exact nameLeB_antisymm _ _ hab4 hba4

/-- Two sorted lists that are permutations of each other coincide when
mutual relatedness plus the distinctness relation forces equality. -/
theorem eq_of_sorted_perm {α : Type} (R : α → α → Prop) (N : α → α → Prop)
    (hanti : ∀ a b, R a b → R b a → N a b → a = b) :
    ∀ l₁ l₂ : List α, l₁.Perm l₂ → List.Pairwise R l₁ → List.Pairwise R l₂ →
      List.Pairwise N l₁ → l₁ = l₂ := by
  intro l₁
  induction l₁ with
  | nil =>
    intro l₂ hp _ _ _
    exact (hp.symm.eq_nil).symm
  | cons a t₁ ih =>
    intro l₂ hp hs1 hs2 hN
    cases l₂ with
    | nil => cases hp.eq_nil
    | cons b t₂ =>
      have hab : a = b := by
        by_contra hne
        have hbmem : b ∈ a :: t₁ := hp.mem_iff.2 (List.mem_cons_self _ _)
        have hamem : a ∈ b :: t₂ := hp.mem_iff.1 (List.mem_cons_self _ _)
        have hb1 : b ∈ t₁ := by
          rcases List.mem_cons.1 hbmem with h | h
          · exact absurd h.symm hne
          · exact h
        have ha2 : a ∈ t₂ := by
          rcases List.mem_cons.1 hamem with h | h
          · exact absurd h hne
          · exact h
        exact hne (hanti a b ((List.pairwise_cons.1 hs1).1 b hb1)
          ((List.pairwise_cons.1 hs2).1 a ha2) ((List.pairwise_cons.1 hN).1 b hb1))
      subst hab
      rw [ih t₂ hp.cons_inv (List.pairwise_cons.1 hs1).2 (List.pairwise_cons.1 hs2).2
        (List.pairwise_cons.1 hN).2]

/-- Counterexample to C5 as stated: with a NULL short name in play, the
payload is not sorted by its own (trimmed) `short_name` field — the NULL
name sorts last in SQL but trims to the empty string, which is the least
string. -/
theorem C5_sort_counterexample :
    ¬ claimSorted (api_standings exDBnull (EditionParam.year 2025)) := by
  intro h
  have hval : api_standings exDBnull (EditionParam.year 2025)
      = [⟨1, 1, "Alpha", 0, 0, 0, 0, 0⟩, ⟨2, 2, "", 0, 0, 0, 0, 0⟩] := by decide
  rw [claimSorted, hval] at h
  have := (List.pairwise_cons.1 h).1 ⟨2, 2, "", 0, 0, 0, 0, 0⟩ (List.mem_cons_self _ _)
  exact absurd this (by decide)

/-- C5 as amended: the payload is the stable sort of the final rows under
(points desc, speaker points desc, firsts desc, seconds desc, raw short
name asc with NULLs last); it is a permutation of the final rows, and when
the raw short names are pairwise distinct the result does not depend on
the insertion order of the rows. -/
theorem C5_sort_amended (db : DB) (p : EditionParam) (ed : Edition)
    (hres : resolveEdition db p = some ed)
    (l' : List FinalRow) (hperm : (finalRows db ed.id).Perm l')
    (hnames : List.Pairwise (fun a b : FinalRow => a.short_name ≠ b.short_name)
      (finalRows db ed.id)) :
    List.Pairwise (fun a b => rowLeB a b = true) (sortedFinalRows db ed.id)
    ∧ (sortedFinalRows db ed.id).Perm (finalRows db ed.id)
    ∧ api_standings db p
        = (List.insertionSort (fun a b => rowLeB a b = true) l').map toStandingRow := by
  haveI : IsTotal FinalRow (fun a b => rowLeB a b = true) :=
    ⟨fun a b => by simpa [Bool.or_eq_true] using rowLeB_total a b⟩
  haveI : IsTrans FinalRow (fun a b => rowLeB a b = true) :=
    ⟨fun a b c h1 h2 => rowLeB_trans a b c h1 h2⟩
  have hs1 : List.Pairwise (fun a b => rowLeB a b = true) (sortedFinalRows db ed.id) :=
    List.sorted_insertionSort _ _
  have hp1 : (sortedFinalRows db ed.id).Perm (finalRows db ed.id) :=
    List.perm_insertionSort _ _
  refine ⟨hs1, hp1, ?_⟩
  have hs2 : List.Pairwise (fun a b => rowLeB a b = true)
      (List.insertionSort (fun a b => rowLeB a b = true) l') :=
    List.sorted_insertionSort _ _
  have hp2 : (List.insertionSort (fun a b => rowLeB a b = true) l').Perm l' :=
    List.perm_insertionSort _ _
  have hp12 : (sortedFinalRows db ed.id).Perm
      (List.insertionSort (fun a b => rowLeB a b = true) l') :=
    (hp1.trans hperm).trans hp2.symm
  have hN : List.Pairwise (fun a b : FinalRow => a.short_name ≠ b.short_name)
      (sortedFinalRows db ed.id) :=
    (hp1.pairwise_iff (fun h => h.symm)).2 hnames
  have heq : sortedFinalRows db ed.id
      = List.insertionSort (fun a b => rowLeB a b = true) l' :=
    eq_of_sorted_perm _ _
      (fun a b h1 h2 hn => absurd (rowLeB_name_eq a b h1 h2) hn)
      _ _ hp12 hs1 hs2 hN
  simp only [api_standings, hres, standingsForEdition, heq]

/-- Witness for the amended C5: sorting the reversed final rows of the
concrete snapshot reproduces the payload. -/
theorem C5_sort_amended_witness :
    List.Pairwise (fun a b => rowLeB a b = true) (sortedFinalRows exDB 1)
    ∧ (sortedFinalRows exDB 1).Perm (finalRows exDB 1)
    ∧ api_standings exDB (EditionParam.year 2025)
        = (List.insertionSort (fun a b => rowLeB a b = true)
            ((finalRows exDB 1).reverse)).map toStandingRow :=
  C5_sort_amended exDB (EditionParam.year 2025) ⟨1, 2025⟩ (by decide)
    ((finalRows exDB 1).reverse) (by decide) (by decide)

/-- The SQL `rank()` of a standings row counts the strictly better rows of
the same debate among the ranked rows themselves. -/
theorem rankedRows_rnk (db : DB) (eid : Nat) :
    ∀ t ∈ rankedRows db eid,
      t.rnk = 1 + (((rankedRows db eid).filter
          (fun u => decide (u.debate_id = t.debate_id))).filter
        (fun u => decide (t.team_total < u.team_total))).length := by
  intro t ht
  obtain ⟨t0, ht0, rfl⟩ := List.mem_map.1 ht
  show 1 + ((rankedBase db eid).filter
      (fun u => decide (u.debate_id = t0.debate_id ∧ t0.team_total < u.team_total))).length = _
  congr 1
  rw [rankedRows, List.filter_map, List.filter_map, List.filter_filter, List.length_map]
  congr 1
  refine (List.filter_congr (fun u _ => ?_)).symm
  by_cases h1 : u.debate_id = t0.debate_id <;>
    by_cases h2 : t0.team_total < u.team_total <;> simp [h1, h2]

/-- For a complete debate, the ranked rows of that debate are the images
of its four fully-scored grouped rows. -/
theorem rankedDeb_eq (db : DB) (eid : Nat) (d : Nat) (hd : d ∈ completeDebateIds db eid) :
    (rankedRows db eid).filter (fun t => decide (t.debate_id = d))
      = ((teamRows2 db eid).filter (fun t => decide (t.debate_id = d))).map
          (fun t => (⟨t.debate_id, t.es_id, t.team_total, t.scores_published,
            1 + ((rankedBase db eid).filter (fun u =>
              decide (u.debate_id = t.debate_id ∧ t.team_total < u.team_total))).length⟩
            : RankedRow)) := by
  rw [rankedRows, List.filter_map]
  congr 1
  have h1 : rankedBase db eid = (teamRows db eid).filter
      (fun t => decide (t.speech_count = 2 ∧ t.debate_id ∈ completeDebateIds db eid)) := rfl
  rw [h1, teamRows2, List.filter_filter, List.filter_filter]
  refine List.filter_congr (fun t _ => ?_)
  by_cases h2 : t.debate_id = d
  · by_cases h3 : t.speech_count = 2
    · simp [h2, h3, hd]
    · simp [h2, h3]
  · simp [h2]

/-- The ranked rows of a complete debate number exactly four. -/
theorem rankedDeb_length (db : DB) (eid : Nat) (d : Nat)
    (hd : d ∈ completeDebateIds db eid) :
    ((rankedRows db eid).filter (fun t => decide (t.debate_id = d))).length = 4 := by
  rw [rankedDeb_eq db eid d hd, List.length_map]
  rw [completeDebateIds, List.mem_filter] at hd
  exact of_decide_eq_true hd.2

/-- With pairwise distinct totals inside each debate, a complete debate's
four rows carry tournament points summing to six. -/
theorem debate_points_sum (db : DB) (eid : Nat) (d : Nat)
    (hd : d ∈ completeDebateIds db eid)
    (hdist : List.Pairwise (fun t u : RankedRow =>
      t.debate_id = u.debate_id → t.team_total ≠ u.team_total) (rankedRows db eid)) :
    (((rankedRows db eid).filter (fun t => decide (t.debate_id = d))).map
      (fun t => pointsOfRank t.rnk)).sum = 6 := by
  have hlen := rankedDeb_length db eid d hd
  have hrnk : ∀ t ∈ (rankedRows db eid).filter (fun t => decide (t.debate_id = d)),
      t.rnk = 1 + (((rankedRows db eid).filter
        (fun t => decide (t.debate_id = d))).filter
          (fun u => decide (t.team_total < u.team_total))).length := by
    intro t htm
    obtain ⟨ht, htd⟩ := List.mem_filter.1 htm
    have htd' : t.debate_id = d := of_decide_eq_true htd
    rw [rankedRows_rnk db eid t ht, htd']
  have hdistL : List.Pairwise (fun t u : RankedRow => t.team_total ≠ u.team_total)
      ((rankedRows db eid).filter (fun t => decide (t.debate_id = d))) := by
    refine List.Pairwise.imp_of_mem ?_ (hdist.filter _)
    intro t u htm hum h
    have htd : t.debate_id = d := of_decide_eq_true (List.mem_filter.1 htm).2
    have hud : u.debate_id = d := of_decide_eq_true (List.mem_filter.1 hum).2
    exact h (htd.trans hud.symm)
  have hperm := counts_perm (fun t : RankedRow => t.team_total)
    ((rankedRows db eid).filter (fun t => decide (t.debate_id = d))) hdistL
  rw [List.map_congr_left (fun t htm => by rw [hrnk t htm])]
  have hmm : ((rankedRows db eid).filter (fun t => decide (t.debate_id = d))).map
      (fun t => pointsOfRank (1 + (((rankedRows db eid).filter
        (fun t => decide (t.debate_id = d))).filter
          (fun u => decide (t.team_total < u.team_total))).length))
      = (((rankedRows db eid).filter (fun t => decide (t.debate_id = d))).map
          (fun t => (((rankedRows db eid).filter
            (fun t => decide (t.debate_id = d))).filter
              (fun u => decide (t.team_total < u.team_total))).length)).map
          (fun n => pointsOfRank (1 + n)) := by
    rw [List.map_map]
    rfl
  rw [hmm, (hperm.map (fun n => pointsOfRank (1 + n))).sum_eq, hlen]
  decide

/-- The debates occurring among the ranked rows are exactly the complete
debates. -/
theorem ranked_debates_perm (db : DB) (eid : Nat) :
    (((rankedRows db eid).map (fun t => t.debate_id)).dedup).Perm
      (completeDebateIds db eid) := by
  have hnd1 : (((rankedRows db eid).map (fun t => t.debate_id)).dedup).Nodup :=
    List.nodup_dedup _
  have hnd2 : (completeDebateIds db eid).Nodup := by
    rw [completeDebateIds]
    exact List.Nodup.filter _ (List.nodup_dedup _)
  refine (List.perm_ext_iff_of_nodup hnd1 hnd2).2 (fun d => ?_)
  constructor
  · intro hd
    obtain ⟨t, ht, rfl⟩ := List.mem_map.1 (List.mem_dedup.1 hd)
    obtain ⟨t0, ht0, rfl⟩ := List.mem_map.1 ht
    rw [rankedBase] at ht0
    obtain ⟨-, hcond⟩ := List.mem_filter.1 ht0
    exact (of_decide_eq_true hcond).2
  · intro hd
    have hlen := rankedDeb_length db eid d hd
    rcases hne : (rankedRows db eid).filter (fun t => decide (t.debate_id = d))
      with _ | ⟨t, rest⟩
    · rw [hne] at hlen
      simp at hlen
    · have ht : t ∈ (rankedRows db eid).filter (fun t => decide (t.debate_id = d)) := by
        rw [hne]
        exact List.mem_cons_self _ _
      obtain ⟨htr, htd⟩ := List.mem_filter.1 ht
      rw [List.mem_dedup]
      exact List.mem_map.2 ⟨t, htr, of_decide_eq_true htd⟩

/-- With pairwise distinct totals inside each debate, the tournament
points of all ranked rows sum to six per complete debate. -/
theorem ranked_points_total (db : DB) (eid : Nat)
    (hdist : List.Pairwise (fun t u : RankedRow =>
      t.debate_id = u.debate_id → t.team_total ≠ u.team_total) (rankedRows db eid)) :
    ((rankedRows db eid).map (fun t => pointsOfRank t.rnk)).sum
      = 6 * ((completeDebateIds db eid).length : Int) := by
  rw [← sum_partition (fun t : RankedRow => t.debate_id)
    (fun t => pointsOfRank t.rnk) (rankedRows db eid)]
  have hk : ∀ d ∈ ((rankedRows db eid).map (fun t => t.debate_id)).dedup,
      ((((rankedRows db eid).filter
        (fun r => decide (r.debate_id = d))).map (fun t => pointsOfRank t.rnk)).sum : Int)
        = 6 := by
    intro d hd
    have hdm : d ∈ completeDebateIds db eid := (ranked_debates_perm db eid).subset hd
    exact debate_points_sum db eid d hdm hdist
  rw [List.map_congr_left hk]
  have hlen : (((rankedRows db eid).map (fun t => t.debate_id)).dedup).length
      = (completeDebateIds db eid).length := (ranked_debates_perm db eid).length_eq
  rw [show (fun d : Nat => (6 : Int)) = Function.const Nat (6 : Int) from rfl,
    List.map_const, List.sum_replicate, hlen, nsmul_eq_mul, mul_comm]

/-- The first-occurrence lookup for a plain key equality. -/
theorem find?_eq_self_mem {κ : Type} [DecidableEq κ] (e : κ) :
    ∀ K : List κ, K.find? (fun k => decide (k = e))
      = if e ∈ K then some e else none := by
  intro K
  induction K with
  | nil => rfl
  | cons x xs ih =>
    by_cases hx : x = e
    · subst hx
      rw [List.find?_cons_of_pos _ (by simp), if_pos (List.mem_cons_self _ _)]
    · rw [List.find?_cons_of_neg _ (by simpa using hx), ih]
      by_cases he : e ∈ xs
      · rw [if_pos he, if_pos (List.mem_cons_of_mem _ he)]
      · rw [if_neg he, if_neg (fun hmem => by
          rcases List.mem_cons.1 hmem with h | h
          · exact hx h.symm
          · exact he h)]

/-- The LEFT JOIN lookup into `standings_sq` finds the aggregate row of a
registration exactly when the registration has ranked rows. -/
theorem standingsAgg_find? (db : DB) (eid : Nat) (e : Nat) :
    (standingsAgg db eid).find? (fun a => decide (a.es_id = e))
      = if e ∈ ((rankedRows db eid).map (fun t => t.es_id)).dedup
        then some ⟨e,
          (((rankedRows db eid).filter (fun r => decide (r.es_id = e))).map
            (fun t => pointsOfRank t.rnk)).sum,
          (((rankedRows db eid).filter (fun r => decide (r.es_id = e))).map spOfRow).sum,
          (((rankedRows db eid).filter (fun r => decide (r.es_id = e))).map
            (fun t => firstsOfRank t.rnk)).sum,
          (((rankedRows db eid).filter (fun r => decide (r.es_id = e))).map
            (fun t => secondsOfRank t.rnk)).sum,
          ((rankedRows db eid).filter (fun r => decide (r.es_id = e))).length⟩
        else none := by
  rw [standingsAgg, sqlGroup, List.find?_map]
  have hcomp : ((fun a : AggRow => decide (a.es_id = e)) ∘
      (fun k => (⟨k,
        (((rankedRows db eid).filter
          (fun r => decide ((fun t : RankedRow => t.es_id) r = k))).map
            (fun t => pointsOfRank t.rnk)).sum,
        (((rankedRows db eid).filter
          (fun r => decide ((fun t : RankedRow => t.es_id) r = k))).map spOfRow).sum,
        (((rankedRows db eid).filter
          (fun r => decide ((fun t : RankedRow => t.es_id) r = k))).map
            (fun t => firstsOfRank t.rnk)).sum,
        (((rankedRows db eid).filter
          (fun r => decide ((fun t : RankedRow => t.es_id) r = k))).map
            (fun t => secondsOfRank t.rnk)).sum,
        ((rankedRows db eid).filter
          (fun r => decide ((fun t : RankedRow => t.es_id) r = k))).length⟩ : AggRow)))
      = (fun k : Nat => decide (k = e)) := by
    funext k
    rfl
  rw [hcomp, find?_eq_self_mem]
  by_cases he : e ∈ ((rankedRows db eid).map (fun t => t.es_id)).dedup
  · rw [if_pos he, if_pos he]
    rfl
  · rw [if_neg he, if_neg he]
    rfl

/-- When every ranked registration owns exactly one base row, the LEFT
JOIN preserves the total of the accumulated points. -/
theorem final_points_sum (db : DB) (eid : Nat)
    (hbase : ∀ t ∈ rankedRows db eid,
      ((baseRows db eid).filter (fun b => decide (b.es_id = t.es_id))).length = 1) :
    ((finalRows db eid).map (fun f => f.points)).sum
      = ((rankedRows db eid).map (fun t => pointsOfRank t.rnk)).sum := by
  classical
  set A := ((rankedRows db eid).map (fun t => t.es_id)).dedup with hA
  have hmap : (finalRows db eid).map (fun f => f.points)
      = (baseRows db eid).map (fun b =>
          if b.es_id ∈ A then
            (((rankedRows db eid).filter (fun r => decide (r.es_id = b.es_id))).map
              (fun t => pointsOfRank t.rnk)).sum
          else 0) := by
    rw [finalRows, List.map_map]
    refine List.map_congr_left (fun b _ => ?_)
    show (match (standingsAgg db eid).find? (fun a : AggRow => decide (a.es_id = b.es_id)) with
        | some (a : AggRow) => (⟨b.es_id, b.society_id, b.short_name,
            a.points, a.speaker_points, a.firsts, a.seconds, a.debates⟩ : FinalRow)
        | none => ⟨b.es_id, b.society_id, b.short_name, 0, 0, 0, 0, 0⟩).points = _
    rw [standingsAgg_find? db eid b.es_id]
    by_cases hm : b.es_id ∈ A
    · rw [hA] at hm
      simp [hm, hA]
    · rw [hA] at hm
      simp [hm, hA]
  rw [hmap, sum_filter_split (fun b => decide (b.es_id ∈ A))]
  have hzero : ((((baseRows db eid).filter (fun b => ! decide (b.es_id ∈ A))).map
      (fun b => if b.es_id ∈ A then
        (((rankedRows db eid).filter (fun r => decide (r.es_id = b.es_id))).map
          (fun t => pointsOfRank t.rnk)).sum
      else 0)).sum : Int) = 0 := by
    refine List.sum_eq_zero (fun x hx => ?_)
    obtain ⟨b, hbm, rfl⟩ := List.mem_map.1 hx
    have hb : b.es_id ∉ A := by
      have := (List.mem_filter.1 hbm).2
      rw [Bool.not_eq_true'] at this
      exact of_decide_eq_false this
    rw [if_neg hb]
  rw [hzero, add_zero]
  have hmain : (((baseRows db eid).filter (fun b => decide (b.es_id ∈ A))).map
      (fun b => if b.es_id ∈ A then
        (((rankedRows db eid).filter (fun r => decide (r.es_id = b.es_id))).map
          (fun t => pointsOfRank t.rnk)).sum
      else 0))
      = (((baseRows db eid).filter (fun b => decide (b.es_id ∈ A))).map
          (fun b =>
            (((rankedRows db eid).filter (fun r => decide (r.es_id = b.es_id))).map
              (fun t => pointsOfRank t.rnk)).sum)) := by
    refine List.map_congr_left (fun b hbm => ?_)
    have hb : b.es_id ∈ A := of_decide_eq_true (List.mem_filter.1 hbm).2
    rw [if_pos hb]
  rw [hmain]
  have hperm : ((((baseRows db eid).filter (fun b => decide (b.es_id ∈ A))).map
      (fun b => b.es_id))).Perm A := by
    refine List.perm_iff_count.2 (fun e => ?_)
    rw [List.count_eq_countP, List.countP_map, List.countP_filter]
    by_cases he : e ∈ A
    · have h1 : List.countP (fun b : BaseRow =>
          ((fun x => x == e) ∘ (fun b : BaseRow => b.es_id)) b
            && decide (b.es_id ∈ A)) (baseRows db eid)
          = List.countP (fun b : BaseRow => decide (b.es_id = e)) (baseRows db eid) := by
        refine List.countP_congr (fun b _ => ?_)
        by_cases hbe : b.es_id = e
        · simp [Function.comp, hbe, he]
        · simp [Function.comp, hbe]
      rw [h1, List.countP_eq_length_filter]
      obtain ⟨t, ht, hte⟩ := List.mem_map.1 (List.mem_dedup.1 (hA ▸ he))
      have hone := hbase t ht
      rw [hte] at hone
      rw [hone, List.count_eq_one_of_mem (hA ▸ List.nodup_dedup _) he]
    · have h0 : List.countP (fun b : BaseRow =>
          ((fun x => x == e) ∘ (fun b : BaseRow => b.es_id)) b
            && decide (b.es_id ∈ A)) (baseRows db eid) = 0 := by
        refine List.countP_eq_zero.2 (fun b _ hb => ?_)
        rw [Bool.and_eq_true] at hb
        have hbe : b.es_id = e := by simpa [Function.comp] using hb.1
        exact he (hbe ▸ of_decide_eq_true hb.2)
      rw [h0, List.count_eq_zero_of_not_mem he]
  have hmm2 : (((baseRows db eid).filter (fun b => decide (b.es_id ∈ A))).map
      (fun b =>
        (((rankedRows db eid).filter (fun r => decide (r.es_id = b.es_id))).map
          (fun t => pointsOfRank t.rnk)).sum))
      = ((((baseRows db eid).filter (fun b => decide (b.es_id ∈ A))).map
          (fun b => b.es_id)).map
          (fun e =>
            (((rankedRows db eid).filter (fun r => decide (r.es_id = e))).map
              (fun t => pointsOfRank t.rnk)).sum)) := by
    rw [List.map_map]
    rfl
  rw [hmm2, (hperm.map _).sum_eq, hA]
  exact sum_partition (fun t : RankedRow => t.es_id)
    (fun t => pointsOfRank t.rnk) (rankedRows db eid)

/-- Counterexample to C3 as stated: with two sides tied at the top of the
single complete debate, SQL `rank()` yields ranks 1,1,3,4, the points sum
is 3+3+1+0 = 7, and the payload's points column sums to 7, not 6 times the
one fully-scored debate. -/
theorem C3_points_sum_counterexample :
    resolveEdition exDBtie (EditionParam.year 2025) = some ⟨1, 2025⟩
    ∧ ((api_standings exDBtie (EditionParam.year 2025)).map (fun r => r.points)).sum = 7
    ∧ (completeDebateIds exDBtie 1).length = 1
    ∧ (7 : Int) ≠ 6 * 1 := by decide

/-- C3 as amended: when no two sides of any complete debate tie on team
total and every ranked registration owns exactly one eligible base row,
the points column of the payload sums to six per fully-scored debate of
the edition's non-silent rounds. -/
theorem C3_points_sum_amended (db : DB) (p : EditionParam) (ed : Edition)
    (hres : resolveEdition db p = some ed)
    (hdist : List.Pairwise (fun t u : RankedRow =>
      t.debate_id = u.debate_id → t.team_total ≠ u.team_total) (rankedRows db ed.id))
    (hbase : ∀ t ∈ rankedRows db ed.id,
      ((baseRows db ed.id).filter (fun b => decide (b.es_id = t.es_id))).length = 1) :
    ((api_standings db p).map (fun r => r.points)).sum
      = 6 * ((completeDebateIds db ed.id).length : Int) := by
  have h1 : ((api_standings db p).map (fun r => r.points)).sum
      = ((finalRows db ed.id).map (fun f => f.points)).sum := by
    simp only [api_standings, hres, standingsForEdition]
    rw [List.map_map]
    have h2 : ((fun r : StandingRow => r.points) ∘ toStandingRow)
        = (fun f : FinalRow => f.points) := rfl
    rw [h2, sortedFinalRows]
    exact ((List.perm_insertionSort _ _).map _).sum_eq
  rw [h1, final_points_sum db ed.id hbase, ranked_points_total db ed.id hdist]

/-- Witness for the amended C3 on the concrete snapshot: two complete
debates, points summing to 12. -/
theorem C3_points_sum_amended_witness :
    ((api_standings exDB (EditionParam.year 2025)).map (fun r => r.points)).sum
      = 6 * ((completeDebateIds exDB 1).length : Int) :=
  C3_points_sum_amended exDB (EditionParam.year 2025) ⟨1, 2025⟩ (by decide)
    (by decide) (by decide)

end TacaSociedades
